import Mathlib

/-!
# DTU Connect: the post catalog and its persistence

A shallow embedding of `src/main.cpp` (classes `Comment`, `Post` and its five
subclasses, and `PostService`) together with theorems about it.

Modelling conventions
* `long long` and `int` values held in memory are `Int`; `++` and `+ 1` on them are
  computed on `Int`, which is what the C++ computes as long as the result stays in
  the range of the field (signed overflow is undefined behaviour in C++).  The
  predicates `callDefined`, `runDefined`, `updateNextIdDefined` and `executionDefined`
  say when that is so.  The narrowing done when a JSON number is converted to
  `long long` or `int` is explicit (`wrapSigned`).
* `std::string` is `String`.
* The system clock is an input: every operation that reads it receives the formatted
  reading as `Env.now`.
* The file `posts.json` is part of the state (`PostService.DB_FILE`).  Its text is
  represented by the JSON value it parses to; `dump` followed by parsing is taken to
  give the value back.
* A caught `json::exception` is `none`.
-/

namespace DtuConnect

/-! ## JSON values (`json.hpp`, which is not part of the sources) -/

/-- Modelled from the spec: the header `json.hpp` is missing; this is the value type
`nlohmann::json` as far as the persisted document of section 4.4 needs it.  Signed
and unsigned integer numbers share `number_integer`; a floating-point number is the
rational it denotes; an object is the list of its members. -/
inductive Json where
  | null
  | boolean (b : Bool)
  | number_integer (n : Int)
  | number_float (x : ℚ)
  | string (s : String)
  | array (elements : List Json)
  | object (members : List (String × Json))

/-- First binding of `key` in a member list. -/
def lookupKey (key : String) : List (String × Json) → Option Json
  | [] => none
  | (k, v) :: rest => if k = key then some v else lookupKey key rest

/-- Replace the binding of `key`, or add one at the end. -/
def assignKey (key : String) (v : Json) : List (String × Json) → List (String × Json)
  | [] => [(key, v)]
  | (k, w) :: rest => if k = key then (k, v) :: rest else (k, w) :: assignKey key v rest

/-- Modelled from the spec: `json::at(key)` of the missing `json.hpp`; `none` stands for
the exception raised when the value is not an object or has no such key. -/
def Json.atKey (j : Json) (key : String) : Option Json :=
  match j with
  | .object members => lookupKey key members
  | _ => none

/-- Modelled from the spec: `json::contains(key)` of the missing `json.hpp`. -/
def Json.contains (j : Json) (key : String) : Bool :=
  match j with
  | .object members => (lookupKey key members).isSome
  | _ => false

/-- Modelled from the spec: `json::is_array()` of the missing `json.hpp`. -/
def Json.is_array : Json → Bool
  | .array _ => true
  | _ => false

/-- Modelled from the spec: `j[key] = v` of the missing `json.hpp`: a null value becomes
an object first.  On any other non-object the library raises an exception; the
serializers below never reach that case and it leaves the value as it is here. -/
def Json.set (j : Json) (key : String) (v : Json) : Json :=
  match j with
  | .null => .object [(key, v)]
  | .object members => .object (assignKey key v members)
  | other => other

/-- Modelled from the spec: the values a range-based `for` over a `json` visits (missing
`json.hpp`): the elements of an array, the member values of an object, nothing for
null, and the value itself for any other value. -/
def Json.iterate : Json → List Json
  | .array elements => elements
  | .object members => members.map Prod.snd
  | .null => []
  | other => [other]

/-- Two's-complement reading of `n` in `w` bits. -/
def wrapSigned (w : Nat) (n : Int) : Int :=
  (n + 2 ^ (w - 1)) % 2 ^ w - 2 ^ (w - 1)

/-- Modelled from the spec: conversion of a `json` to `std::string` (missing
`json.hpp`); `none` is the type error raised for a non-string. -/
def Json.get_string : Json → Option String
  | .string s => some s
  | _ => none

/-- Modelled from the spec: conversion of a `json` to `long long` (missing `json.hpp`).
Section 3 gives `id` as an integer and section 4.4 has an element with a wrongly
shaped value skipped: an integer converts, read in the 64 bits of the variable it is
assigned to, and every other value is the type error. -/
def Json.get_long_long : Json → Option Int
  | .number_integer n => some (wrapSigned 64 n)
  | _ => none

/-- Modelled from the spec: conversion of a `json` to `int` (missing `json.hpp`).
Section 3 gives `likes` as an integer and section 4.4 has an element with a wrongly
shaped value skipped: an integer converts, read in the 32 bits of the variable it is
assigned to, and every other value is the type error. -/
def Json.get_int : Json → Option Int
  | .number_integer n => some (wrapSigned 32 n)
  | _ => none

/-! ## Comment -/

/-- Class `Comment`. -/
structure Comment where
  author : String
  content : String
  timestamp : String
  deriving DecidableEq, Repr

/-- Constructor `Comment(author, content)`: the timestamp is the clock reading. -/
def Comment.create (author content now : String) : Comment :=
  { author := author, content := content, timestamp := now }

/-- Constructor `Comment(author, content, timestamp)`. -/
def Comment.restore (author content timestamp : String) : Comment :=
  { author := author, content := content, timestamp := timestamp }

/-- Method `Comment::toJson`. -/
def Comment.toJson (c : Comment) : Json :=
  .object [("author", .string c.author), ("content", .string c.content),
    ("timestamp", .string c.timestamp)]

/-! ## Post and its subclasses -/

/-- The concrete class of a post; `LostAndFoundPost` carries its `itemStatus`. -/
inductive PostClass where
  | GeneralPost
  | LostAndFoundPost (itemStatus : String)
  | HelpRequestPost
  | EventsPost
  | AcademicPost
  deriving DecidableEq, Repr

/-- Class `Post` with the dynamic class of the object. -/
structure Post where
  id : Int
  author : String
  content : String
  timestamp : String
  likes : Int
  comments : List Comment
  cls : PostClass
  deriving DecidableEq, Repr

/-- Constructor `Post(id, author, content)` as run by the subclass `cls`:
`likes(0)`, no comments, timestamp from the clock. -/
def Post.create (cls : PostClass) (id : Int) (author content now : String) : Post :=
  { id := id, author := author, content := content, timestamp := now, likes := 0,
    comments := [], cls := cls }

/-- The five overrides of `getType`. -/
def Post.getType (p : Post) : String :=
  match p.cls with
  | .GeneralPost => "general"
  | .LostAndFoundPost itemStatus => itemStatus
  | .HelpRequestPost => "help"
  | .EventsPost => "events"
  | .AcademicPost => "academic"

/-- Method `Post::toJson` of the base class. -/
def Post.baseToJson (p : Post) : Json :=
  let j := Json.null
  let j := j.set "id" (.number_integer p.id)
  let j := j.set "author" (.string p.author)
  let j := j.set "content" (.string p.content)
  let j := j.set "timestamp" (.string p.timestamp)
  let j := j.set "likes" (.number_integer p.likes)
  let j := j.set "type" (.string p.getType)
  let j_comments := Json.array (p.comments.map Comment.toJson)
  j.set "comments" j_comments

/-- Virtual `toJson`: `LostAndFoundPost` overrides it and adds `itemStatus`. -/
def Post.toJson (p : Post) : Json :=
  match p.cls with
  | .LostAndFoundPost itemStatus => (p.baseToJson).set "itemStatus" (.string itemStatus)
  | _ => p.baseToJson

/-- Method `Post::addComment`: appends `Comment(author, content)` and returns it. -/
def Post.addComment (p : Post) (author content now : String) : Comment × Post :=
  let c := Comment.create author content now
  (c, { p with comments := p.comments ++ [c] })

/-- Method `Post::loadComment`. -/
def Post.loadComment (p : Post) (c : Comment) : Post :=
  { p with comments := p.comments ++ [c] }

/-- Method `Post::setTimestamp`. -/
def Post.setTimestamp (p : Post) (ts : String) : Post :=
  { p with timestamp := ts }

/-- Method `Post::incrementLikes`.  The `likes++` on the `int` field is computed on
`Int`; this is the C++ value as long as `likes` is below the largest `int`, which
`callDefined` states, and the C++ increment is undefined beyond. -/
def Post.incrementLikes (p : Post) : Post :=
  { p with likes := p.likes + 1 }

/-- Method `Post::decrementLikes`. -/
def Post.decrementLikes (p : Post) : Post :=
  if p.likes > 0 then { p with likes := p.likes - 1 } else p

/-- Method `Post::setLikes`. -/
def Post.setLikes (p : Post) (numLikes : Int) : Post :=
  { p with likes := numLikes }

/-- Method `Post::getId`. -/
def Post.getId (p : Post) : Int := p.id

/-! ## PostService -/

/-- What `std::ifstream f(DB_FILE); f >> j` meets: no file, a file that is not JSON, or
a file holding the text of a JSON value. -/
inductive DbFile where
  | absent
  | unparsable
  | document (j : Json)

/-- Inputs an operation takes from its surroundings: the clock reading and whether
`DB_FILE` can be opened for writing. -/
structure Env where
  now : String
  writable : Bool

/-- Class `PostService` (`posts`, `nextId`) with the file it reads and writes. -/
structure PostService where
  posts : List Post
  nextId : Int
  DB_FILE : DbFile

/-- The loop of `updateNextId`, started with the running maximum `maxId`. -/
def maxIdFrom (maxId : Int) : List Post → Int
  | [] => maxId
  | post :: rest => maxIdFrom (if post.getId > maxId then post.getId else maxId) rest

/-- Method `PostService::updateNextId`.  The `maxId + 1` on `long long` is computed on
`Int`; this is the C++ value as long as the largest id is below the largest
`long long`, which `updateNextIdDefined` states. -/
def PostService.updateNextId (s : PostService) : PostService :=
  { s with nextId := maxIdFrom 0 s.posts + 1 }

/-- Method `PostService::getAllPostsAsJson`: the posts from last to first. -/
def PostService.getAllPostsAsJson (s : PostService) : Json :=
  .array (s.posts.reverse.map Post.toJson)

/-- Method `PostService::savePosts`: rewrites the file when it can be opened. -/
def PostService.savePosts (e : Env) (s : PostService) : PostService :=
  if e.writable then { s with DB_FILE := .document s.getAllPostsAsJson } else s

/-- The `if`/`else if` chain of `createPost` that picks the subclass. -/
def makePost (type : String) (id : Int) (author content now : String) : Post :=
  if type = "lost" then Post.create (.LostAndFoundPost "lost") id author content now
  else if type = "found" then Post.create (.LostAndFoundPost "found") id author content now
  else if type = "help" then Post.create .HelpRequestPost id author content now
  else if type = "events" then Post.create .EventsPost id author content now
  else if type = "academic" then Post.create .AcademicPost id author content now
  else Post.create .GeneralPost id author content now

/-- Method `PostService::createPost`.  The `nextId++` on `long long` is computed on
`Int`; this is the C++ value as long as `nextId` is below the largest `long long`,
which `callDefined` states. -/
def PostService.createPost (e : Env) (s : PostService) (author content type : String) :
    Post × PostService :=
  let id := s.nextId
  let s := { s with nextId := s.nextId + 1 }
  let newPost := makePost type id author content e.now
  let s := { s with posts := s.posts ++ [newPost] }
  (newPost, s.savePosts e)

/-- The scan `for (auto &post : posts) if (post->getId() == postId) ...` shared by
`addCommentToPost`, `likePost` and `unlikePost`: the first post with the id is
replaced by `f post` and the scan stops; `none` when the loop runs to its end. -/
def updateFirst (f : Post → Post) (postId : Int) : List Post → Option (Post × List Post)
  | [] => none
  | post :: rest =>
    if post.getId = postId then some (f post, f post :: rest)
    else
      match updateFirst f postId rest with
      | some (q, rest') => some (q, post :: rest')
      | none => none

/-- Method `PostService::addCommentToPost`; `none` is `nullptr`. -/
def PostService.addCommentToPost (e : Env) (s : PostService) (postId : Int)
    (author content : String) : Option Comment × PostService :=
  match updateFirst (fun post => (post.addComment author content e.now).2) postId s.posts with
  | some (_, posts') =>
    (some (Comment.create author content e.now), ({ s with posts := posts' }).savePosts e)
  | none => (none, s)

/-- Method `PostService::likePost`; `none` is `nullptr`. -/
def PostService.likePost (e : Env) (s : PostService) (postId : Int) :
    Option Post × PostService :=
  match updateFirst Post.incrementLikes postId s.posts with
  | some (post, posts') => (some post, ({ s with posts := posts' }).savePosts e)
  | none => (none, s)

/-- Method `PostService::unlikePost`; `none` is `nullptr`. -/
def PostService.unlikePost (e : Env) (s : PostService) (postId : Int) :
    Option Post × PostService :=
  match updateFirst Post.decrementLikes postId s.posts with
  | some (post, posts') => (some post, ({ s with posts := posts' }).savePosts e)
  | none => (none, s)

/-- The argument list `Comment(c_item.at("author"), c_item.at("content"),
c_item.at("timestamp"))` of `loadPosts`, each argument converted to `std::string`. -/
def commentOfJson (c_item : Json) : Option Comment := do
  let ja ← c_item.atKey "author"
  let author ← ja.get_string
  let jc ← c_item.atKey "content"
  let content ← jc.get_string
  let jts ← c_item.atKey "timestamp"
  let timestamp ← jts.get_string
  pure (Comment.restore author content timestamp)

/-- The inner loop of `loadPosts` over `item.at("comments")`. -/
def loadComments (newPost : Post) : List Json → Option Post
  | [] => some newPost
  | c_item :: rest =>
    match commentOfJson c_item with
    | some c => loadComments (newPost.loadComment c) rest
    | none => none

/-- The `if`/`else if` chain of `loadPosts` that picks the subclass. -/
def restorePost (type : String) (id : Int) (author content now : String) : Post :=
  if type = "lost" then Post.create (.LostAndFoundPost "lost") id author content now
  else if type = "found" then Post.create (.LostAndFoundPost "found") id author content now
  else if type = "help" then Post.create .HelpRequestPost id author content now
  else if type = "events" then Post.create .EventsPost id author content now
  else if type = "academic" then Post.create .AcademicPost id author content now
  else Post.create .GeneralPost id author content now

/-- The body of the `try` block of `loadPosts` for one `item`: the post to push, or
`none` when a `json::exception` is caught. -/
def loadItem (now : String) (item : Json) : Option Post := do
  let jt ← item.atKey "type"
  let type ← jt.get_string
  let ji ← item.atKey "id"
  let id ← ji.get_long_long
  let ja ← item.atKey "author"
  let author ← ja.get_string
  let jc ← item.atKey "content"
  let content ← jc.get_string
  let jts ← item.atKey "timestamp"
  let timestamp ← jts.get_string
  let likes ← (if item.contains "likes" then (item.atKey "likes").bind Json.get_int
               else some 0)
  let newPost := restorePost type id author content now
  let newPost := newPost.setTimestamp timestamp
  let newPost := newPost.setLikes likes
  match item.atKey "comments" with
  | some (.array c_items) => loadComments newPost c_items
  | _ => some newPost

/-- Method `PostService::loadPosts`. -/
def PostService.loadPosts (e : Env) (s : PostService) : PostService :=
  match s.DB_FILE with
  | .absent => s
  | .unparsable => s
  | .document j =>
    ({ s with posts := j.iterate.filterMap (loadItem e.now) }).updateNextId

/-- Constructor `PostService()`: `nextId = 1`, no posts, then `loadPosts()`. -/
def PostService.construct (e : Env) (file : DbFile) : PostService :=
  PostService.loadPosts e { posts := [], nextId := 1, DB_FILE := file }

/-! ## Sequences of calls -/

/-- A call on the catalog made by the request layer. -/
inductive Call where
  | create (author content type : String)
  | addComment (postId : Int) (author content : String)
  | like (postId : Int)
  | unlike (postId : Int)

/-- The state after one call. -/
def PostService.step (s : PostService) (ec : Env × Call) : PostService :=
  match ec.2 with
  | .create author content type => (s.createPost ec.1 author content type).2
  | .addComment postId author content => (s.addCommentToPost ec.1 postId author content).2
  | .like postId => (s.likePost ec.1 postId).2
  | .unlike postId => (s.unlikePost ec.1 postId).2

/-- The state after a sequence of calls, each with its own surroundings. -/
def PostService.run (s : PostService) (calls : List (Env × Call)) : PostService :=
  calls.foldl PostService.step s


/-! ## Quantities the claims speak of -/

/-- The value `updateNextId` gives: one more than the running maximum started at 0. -/
def NextIdInv (s : PostService) : Prop := s.nextId = maxIdFrom 0 s.posts + 1

/-- The largest id among the posts; `none` when there is no post. -/
def largestId : List Post → Option Int
  | [] => none
  | p :: rest =>
    match largestId rest with
    | none => some p.id
    | some m => some (max p.id m)

/-- One more than the larger of 0 and the largest id, or 1 when the catalog holds no
post. -/
def flooredNextId (posts : List Post) : Int :=
  match largestId posts with
  | none => 1
  | some m => 1 + max 0 m

/-- A catalog holding one general post with id 1 and no likes. -/
def onePostService : PostService :=
  { posts := [Post.create .GeneralPost 1 "a" "c" "t"], nextId := 2, DB_FILE := .absent }

/-- The post a scan for `postId` stops at: the first one in storage order with that id. -/
def firstWithId (postId : Int) (posts : List Post) : Option Post :=
  posts.find? (fun p => p.id == postId)

/-- All posts have a non-negative like count. -/
def LikesNonneg (s : PostService) : Prop := ∀ p ∈ s.posts, 0 ≤ p.likes

/-- A document holding one general post whose `likes` is negative. -/
def negativeLikesDocument : DbFile :=
  .document (.array [.object [("type", .string "general"), ("id", .number_integer 1),
    ("author", .string "a"), ("content", .string "c"), ("timestamp", .string "t"),
    ("likes", .number_integer (-3))]])

/-- The catalog after two creates on an empty, writable store. -/
def twoPosts : PostService :=
  (PostService.construct ⟨"t0", true⟩ .absent).run
    [(⟨"t1", true⟩, .create "alice" "first" "general"),
     (⟨"t2", true⟩, .create "bob" "second" "help")]

/-- A fresh catalog constructed on the file `twoPosts` has saved. -/
def twoPostsReloaded : PostService :=
  PostService.construct ⟨"t3", true⟩ (twoPosts.savePosts ⟨"t3", true⟩).DB_FILE

/-- The ids of the elements of a listing, in listing order. -/
def listedIds (j : Json) : List (Option Int) :=
  j.iterate.map (fun item => (item.atKey "id").bind Json.get_long_long)

/-! ### The scenario of section 8 -/

/-- Step 1: `createPost("alice", "lost my keys", "lost")` on an empty catalog. -/
def scenario1 (ev : Nat → Env) : Post × PostService :=
  (PostService.construct (ev 0) .absent).createPost (ev 1) "alice" "lost my keys" "lost"

/-- Step 2: `likePost(1)`. -/
def scenario2 (ev : Nat → Env) : Option Post × PostService :=
  (scenario1 ev).2.likePost (ev 2) 1

/-- Step 3: `unlikePost(1)`. -/
def scenario3 (ev : Nat → Env) : Option Post × PostService :=
  (scenario2 ev).2.unlikePost (ev 3) 1

/-- Step 4: `unlikePost(1)` again. -/
def scenario4 (ev : Nat → Env) : Option Post × PostService :=
  (scenario3 ev).2.unlikePost (ev 4) 1

/-- Step 5: `addCommentToPost(1, "bob", "found them!")`. -/
def scenario5 (ev : Nat → Env) : Option Comment × PostService :=
  (scenario4 ev).2.addCommentToPost (ev 5) 1 "bob" "found them!"

/-- Step 6: `addCommentToPost(999, author, content)`. -/
def scenario6 (ev : Nat → Env) (author content : String) : Option Comment × PostService :=
  (scenario5 ev).2.addCommentToPost (ev 6) 999 author content

/-! ### Shapes of document elements -/

/-- The value is a JSON string. -/
def isString : Json → Bool
  | .string _ => true
  | _ => false

/-- The value is a JSON integer number. -/
def isInteger : Json → Bool
  | .number_integer _ => true
  | _ => false

/-- The value is an object that has `key`, bound to a value passing `ok`. -/
def hasKeyWith (ok : Json → Bool) (j : Json) (key : String) : Bool :=
  match j.atKey key with
  | some v => ok v
  | none => false

/-- A comment entry as section 4.4 describes it: an object with string `author`,
`content` and `timestamp`. -/
def commentShape (c : Json) : Bool :=
  hasKeyWith isString c "author" && (hasKeyWith isString c "content" &&
    hasKeyWith isString c "timestamp")

/-- A post element in the words of the spec (sections 3 and 4.4): an object with string
`type`, `author`, `content`, `timestamp`, an integer `id`, an integer `likes` if the
key is there, and, if the key is there, a `comments` array of comment entries.  Every
other element is missing a required field or has a wrongly-shaped value. -/
def specElementShape (item : Json) : Bool :=
  hasKeyWith isString item "type" && (hasKeyWith isInteger item "id" &&
    (hasKeyWith isString item "author" && (hasKeyWith isString item "content" &&
      (hasKeyWith isString item "timestamp" &&
        ((match item.atKey "likes" with
          | none => true
          | some v => isInteger v) &&
         (match item.atKey "comments" with
          | none => true
          | some (.array c_items) => c_items.all commentShape
          | some _ => false))))))

/-- The shape of `specElementShape` with one change: a `comments` value that is not an
array is let through (it is not looked at).  So: an object with string `type`,
`author`, `content`, `timestamp`, an integer `id`, an integer `likes` if the key is
there, and whose `comments`, if it is an array, holds comment entries only. -/
def elementLoadable (item : Json) : Bool :=
  hasKeyWith isString item "type" && (hasKeyWith isInteger item "id" &&
    (hasKeyWith isString item "author" && (hasKeyWith isString item "content" &&
      (hasKeyWith isString item "timestamp" &&
        ((match item.atKey "likes" with
          | none => true
          | some v => isInteger v) &&
         (match item.atKey "comments" with
          | some (.array c_items) => c_items.all commentShape
          | _ => true))))))

/-- A well-formed element: a help post with id 7, two likes and one comment. -/
def goodElement : Json :=
  .object [("type", .string "help"), ("id", .number_integer 7), ("author", .string "alice"),
    ("content", .string "stuck"), ("timestamp", .string "2024-01-01 10:00:00"),
    ("likes", .number_integer 2),
    ("comments", .array [.object [("author", .string "bob"), ("content", .string "hi"),
      ("timestamp", .string "2024-01-01 10:05:00")]])]

/-- An element with all five required fields whose `comments` is a string. -/
def stringCommentsElement : Json :=
  .object [("type", .string "general"), ("id", .number_integer 8), ("author", .string "carol"),
    ("content", .string "hello"), ("timestamp", .string "2024-01-02 09:00:00"),
    ("comments", .string "oops")]

/-- An element without `id`. -/
def missingIdElement : Json :=
  .object [("type", .string "general"), ("author", .string "dave"),
    ("content", .string "no id"), ("timestamp", .string "2024-01-03 09:00:00")]

/-! ### Definitions for the identity, comment and persistence claims -/

/-- Every post has a positive id and no two posts share one. -/
def IdsPositiveDistinct (posts : List Post) : Prop :=
  (∀ p ∈ posts, 0 < p.id) ∧ (posts.map Post.id).Nodup

/-- A document with two posts of id 3 and one post of id 0. -/
def duplicateIdDocument : DbFile :=
  .document (.array [
    .object [("type", .string "general"), ("id", .number_integer 3), ("author", .string "a"),
      ("content", .string "x"), ("timestamp", .string "t")],
    .object [("type", .string "help"), ("id", .number_integer 3), ("author", .string "b"),
      ("content", .string "y"), ("timestamp", .string "t")],
    .object [("type", .string "events"), ("id", .number_integer 0), ("author", .string "c"),
      ("content", .string "z"), ("timestamp", .string "t")]])

/-- A catalog holding two posts that share the id 4, followed by a post with id 5. -/
def sharedIdService : PostService :=
  { posts := [Post.create .GeneralPost 4 "a" "first" "t1",
              Post.create .HelpRequestPost 4 "b" "second" "t2",
              Post.create .EventsPost 5 "c" "third" "t3"],
    nextId := 6, DB_FILE := .absent }

/-! ### Definitions for the serialization and restore claims -/

/-- The member keys of an object; no key for any other value. -/
def Json.keys : Json → List String
  | .object members => members.map Prod.fst
  | _ => []

/-- The `itemStatus` of a `LostAndFoundPost` is one of the two strings the dispatch
chains pass to its constructor. -/
def classOk (p : Post) : Bool :=
  match p.cls with
  | .LostAndFoundPost itemStatus => itemStatus == "lost" || itemStatus == "found"
  | _ => true

/-- The range of `int`. -/
def fitsInt (n : Int) : Prop := -2 ^ 31 ≤ n ∧ n < 2 ^ 31

/-- The range of `long long`. -/
def fitsLongLong (n : Int) : Prop := -2 ^ 63 ≤ n ∧ n < 2 ^ 63

/-- The JSON value `cj` is an object whose `author`, `content` and `timestamp` are the
strings of the comment `c`. -/
def commentEntry (cj : Json) (c : Comment) : Prop :=
  cj.atKey "author" = some (.string c.author) ∧
  cj.atKey "content" = some (.string c.content) ∧
  cj.atKey "timestamp" = some (.string c.timestamp)

/-- A post as `createPost` and `loadPosts` can hold it in memory: the id is a
`long long`, the like count an `int`, and the class one the dispatch chains build. -/
def Representable (p : Post) : Prop :=
  fitsLongLong p.id ∧ fitsInt p.likes ∧ classOk p = true

/-- The seven keys `Post::toJson` assigns. -/
def baseKeys : List String :=
  ["id", "author", "content", "timestamp", "likes", "type", "comments"]

/-- An element whose `id` is 2^63 and whose `likes` is 2^32: both are integers a JSON
document can carry, the first does not fit a `long long`, the second not an `int`. -/
def hugeNumbersElement : Json :=
  .object [("type", .string "general"), ("id", .number_integer 9223372036854775808),
    ("author", .string "a"), ("content", .string "c"), ("timestamp", .string "t"),
    ("likes", .number_integer 4294967296)]

/-- An element whose required fields are in order and whose `comments` array holds a
good entry followed by an entry without `timestamp`. -/
def badCommentElement : Json :=
  .object [("type", .string "events"), ("id", .number_integer 9), ("author", .string "erin"),
    ("content", .string "party"), ("timestamp", .string "2024-01-04 09:00:00"),
    ("likes", .number_integer 1),
    ("comments", .array [
      .object [("author", .string "bob"), ("content", .string "nice"),
        ("timestamp", .string "2024-01-04 09:30:00")],
      .object [("author", .string "dan"), ("content", .string "when?")]])]

/-- A representable catalog: three posts, one of them lost-and-found with a comment. -/
def threePosts : PostService :=
  { posts := [
      { id := 1, author := "alice", content := "keys", timestamp := "t1", likes := 2,
        comments := [{ author := "bob", content := "seen", timestamp := "t4" }],
        cls := .LostAndFoundPost "lost" },
      { id := 2, author := "bob", content := "exam", timestamp := "t2", likes := 0,
        comments := [], cls := .AcademicPost },
      { id := 3, author := "carol", content := "hi", timestamp := "t3", likes := 5,
        comments := [], cls := .GeneralPost }],
    nextId := 4, DB_FILE := .absent }

/-- The post `loadPosts` makes of `goodElement`. -/
def goodPost : Post :=
  { id := 7, author := "alice", content := "stuck", timestamp := "2024-01-01 10:00:00",
    likes := 2,
    comments := [{ author := "bob", content := "hi", timestamp := "2024-01-01 10:05:00" }],
    cls := .HelpRequestPost }

/-! ### Machine ranges of the integer fields

The operations above compute `likes++`, `nextId++` and `maxId + 1` on `Int`.  The C++
fields are an `int` and two `long long`; the two agree as long as no increment leaves
the range, and the predicates below say when that is so. -/

/-- The largest `int`. -/
def INT_MAX : Int := 2147483647

/-- The largest `long long`. -/
def LLONG_MAX : Int := 9223372036854775807

/-- The statement `nextId = maxId + 1` of `updateNextId` does not overflow on these
posts: the running maximum ends below `LLONG_MAX`. -/
def updateNextIdDefined (posts : List Post) : Bool :=
  decide (maxIdFrom 0 posts < LLONG_MAX)

/-- The call does not overflow in state `s`: `createPost` finds `nextId` below
`LLONG_MAX` (for `nextId++`), `likePost` finds the likes of the post it stops at below
`INT_MAX` (for `likes++`); the other two calls do not increment anything. -/
def callDefined (s : PostService) : Call → Bool
  | .create _ _ _ => decide (s.nextId < LLONG_MAX)
  | .like postId =>
    match firstWithId postId s.posts with
    | some p => decide (p.likes < INT_MAX)
    | none => true
  | .addComment _ _ _ => true
  | .unlike _ => true

/-- No call of the sequence overflows, each taken in the state the calls before it
leave. -/
def runDefined : PostService → List (Env × Call) → Bool
  | _, [] => true
  | s, ec :: rest => callDefined s ec.2 && runDefined (s.step ec) rest

/-- The execution that constructs the catalog on `file` and then makes `calls` has no
integer overflow. -/
def executionDefined (e0 : Env) (file : DbFile) (calls : List (Env × Call)) : Bool :=
  updateNextIdDefined (PostService.construct e0 file).posts &&
    runDefined (PostService.construct e0 file) calls

/-- Every id is a `long long`, every like count an `int`, and `nextId` is a positive
`long long`. -/
def InRange (s : PostService) : Prop :=
  (∀ p ∈ s.posts, fitsLongLong p.id ∧ fitsInt p.likes) ∧ 1 ≤ s.nextId ∧ s.nextId ≤ LLONG_MAX

/-- A document holding one post whose id is the largest `long long`. -/
def largestIdDocument : DbFile :=
  .document (.array [.object [("type", .string "general"),
    ("id", .number_integer 9223372036854775807), ("author", .string "a"),
    ("content", .string "c"), ("timestamp", .string "t")]])

/-- A document holding one post, with id 1, whose likes is the largest `int`. -/
def largestLikesDocument : DbFile :=
  .document (.array [.object [("type", .string "general"), ("id", .number_integer 1),
    ("author", .string "a"), ("content", .string "c"), ("timestamp", .string "t"),
    ("likes", .number_integer 2147483647)]])

/-- A document with the two elements `goodElement` (id 7, two likes) and
`stringCommentsElement` (id 8, no likes). -/
def twoElementDocument : DbFile :=
  .document (.array [goodElement, stringCommentsElement])

/-- Calls made after loading `twoElementDocument`: a create, a like, two unlikes that
meet the floor, a comment and another create. -/
def sampleCalls : List (Env × Call) :=
  [(⟨"t1", true⟩, .create "alice" "one" "lost"), (⟨"t2", true⟩, .like 7),
   (⟨"t3", true⟩, .unlike 8), (⟨"t4", true⟩, .unlike 8),
   (⟨"t5", false⟩, .addComment 9 "bob" "hi"), (⟨"t6", true⟩, .create "bob" "two" "")]

/-- A catalog state holding one post whose id is the largest `long long`. -/
def largestIdService : PostService :=
  { posts := [{ id := 9223372036854775807, author := "a", content := "c", timestamp := "t",
                likes := 0, comments := [], cls := .GeneralPost }],
    nextId := 1, DB_FILE := .absent }

/-! # Theorems -/

/-! ## Lemmas on the scan and on `updateNextId` -/

theorem updateFirst_eq_none_iff (f : Post → Post) (postId : Int) (posts : List Post) :
    updateFirst f postId posts = none ↔ ∀ p ∈ posts, p.id ≠ postId := by
  induction posts with
  | nil => simp [updateFirst]
  | cons post rest ih =>
    by_cases h : post.id = postId
    · simp [updateFirst, Post.getId, h]
    · cases hr : updateFirst f postId rest with
      | none => simpa [updateFirst, Post.getId, h, hr] using ih.mp hr
      | some r =>
        have hne : ¬ ∀ p ∈ rest, p.id ≠ postId := fun hall => by
          rw [ih.mpr hall] at hr; cases hr
        simp only [updateFirst, Post.getId, h, hr, if_false]
        constructor
        · intro hc; cases hc
        · intro hall
          exact absurd (fun p hp => hall p (List.mem_cons_of_mem _ hp)) hne

theorem updateFirst_some (f : Post → Post) (postId : Int) :
    ∀ (posts : List Post) (q : Post) (posts' : List Post),
      updateFirst f postId posts = some (q, posts') →
      ∃ pre p suf, posts = pre ++ p :: suf ∧ (∀ x ∈ pre, x.id ≠ postId) ∧ p.id = postId ∧
        q = f p ∧ posts' = pre ++ f p :: suf := by
  intro posts
  induction posts with
  | nil => intro q posts' h; simp [updateFirst] at h
  | cons post rest ih =>
    intro q posts' h
    by_cases hid : post.id = postId
    · simp only [updateFirst, Post.getId, hid, if_true, Option.some.injEq, Prod.mk.injEq] at h
      exact ⟨[], post, rest, rfl, by simp, hid, h.1.symm, by simp [h.2.symm]⟩
    · cases hr : updateFirst f postId rest with
      | none => simp [updateFirst, Post.getId, hid, hr] at h
      | some r =>
        obtain ⟨q1, rest1⟩ := r
        simp only [updateFirst, Post.getId, hid, hr, if_false, Option.some.injEq,
          Prod.mk.injEq] at h
        obtain ⟨pre, p, suf, h1, h2, h3, h4, h5⟩ := ih q1 rest1 hr
        refine ⟨post :: pre, p, suf, by simp [h1], ?_, h3, by rw [← h.1, h4], by
          rw [← h.2, h5]; simp⟩
        intro x hx
        rcases List.mem_cons.mp hx with hx | hx
        · rw [hx]; exact hid
        · exact h2 x hx

theorem updateFirst_ids (f : Post → Post) (hf : ∀ p, (f p).id = p.id) (postId : Int)
    (posts : List Post) (q : Post) (posts' : List Post)
    (h : updateFirst f postId posts = some (q, posts')) :
    posts'.map Post.id = posts.map Post.id := by
  obtain ⟨pre, p, suf, h1, -, -, -, h5⟩ := updateFirst_some f postId posts q posts' h
  simp [h1, h5, hf]

theorem maxIdFrom_eq_foldl (posts : List Post) :
    ∀ m : Int, maxIdFrom m posts = (posts.map Post.id).foldl max m := by
  induction posts with
  | nil => intro m; rfl
  | cons post rest ih =>
    intro m
    simp only [maxIdFrom, Post.getId, List.map_cons, List.foldl_cons]
    rw [ih]
    congr 1
    by_cases h : post.id > m
    · simp [h, max_eq_right (le_of_lt h)]
    · simp [h, max_eq_left (not_lt.mp h)]

theorem maxIdFrom_append (posts : List Post) (p : Post) (m : Int) :
    maxIdFrom m (posts ++ [p]) = max (maxIdFrom m posts) p.id := by
  simp [maxIdFrom_eq_foldl, List.foldl_append]

theorem maxIdFrom_ge (posts : List Post) : ∀ m : Int, m ≤ maxIdFrom m posts := by
  induction posts with
  | nil => intro m; exact le_refl m
  | cons post rest ih =>
    intro m
    simp only [maxIdFrom, Post.getId]
    split
    · exact le_trans (le_of_lt ‹_›) (ih _)
    · exact ih m

theorem maxIdFrom_mem (posts : List Post) :
    ∀ (m : Int) (p : Post), p ∈ posts → p.id ≤ maxIdFrom m posts := by
  induction posts with
  | nil => intro m p hp; cases hp
  | cons post rest ih =>
    intro m p hp
    simp only [maxIdFrom, Post.getId]
    rcases List.mem_cons.mp hp with hp | hp
    · subst hp
      split
      · exact maxIdFrom_ge rest _
      · exact le_trans (not_lt.mp ‹_›) (maxIdFrom_ge rest m)
    · exact ih _ p hp

/-! ## Effect of each operation on ids and on `nextId` -/

@[simp] theorem savePosts_posts (e : Env) (s : PostService) : (s.savePosts e).posts = s.posts := by
  unfold PostService.savePosts; split <;> rfl

@[simp] theorem savePosts_nextId (e : Env) (s : PostService) :
    (s.savePosts e).nextId = s.nextId := by
  unfold PostService.savePosts; split <;> rfl

theorem makePost_fields (type : String) (id : Int) (author content now : String) :
    (makePost type id author content now).id = id ∧
    (makePost type id author content now).author = author ∧
    (makePost type id author content now).content = content ∧
    (makePost type id author content now).timestamp = now ∧
    (makePost type id author content now).likes = 0 ∧
    (makePost type id author content now).comments = [] := by
  unfold makePost
  repeat' split
  all_goals simp [Post.create]

theorem createPost_fst (e : Env) (s : PostService) (author content type : String) :
    (s.createPost e author content type).1 = makePost type s.nextId author content e.now := rfl

theorem createPost_posts (e : Env) (s : PostService) (author content type : String) :
    (s.createPost e author content type).2.posts
      = s.posts ++ [(s.createPost e author content type).1] := by
  simp [PostService.createPost]

theorem createPost_nextId (e : Env) (s : PostService) (author content type : String) :
    (s.createPost e author content type).2.nextId = s.nextId + 1 := by
  simp [PostService.createPost]

theorem addCommentToPost_nextId (e : Env) (s : PostService) (postId : Int)
    (author content : String) :
    (s.addCommentToPost e postId author content).2.nextId = s.nextId := by
  unfold PostService.addCommentToPost; split <;> simp

theorem likePost_nextId (e : Env) (s : PostService) (postId : Int) :
    (s.likePost e postId).2.nextId = s.nextId := by
  unfold PostService.likePost; split <;> simp

theorem unlikePost_nextId (e : Env) (s : PostService) (postId : Int) :
    (s.unlikePost e postId).2.nextId = s.nextId := by
  unfold PostService.unlikePost; split <;> simp

theorem decrementLikes_id (p : Post) : p.decrementLikes.id = p.id := by
  unfold Post.decrementLikes; split <;> rfl

theorem addCommentToPost_ids (e : Env) (s : PostService) (postId : Int)
    (author content : String) :
    (s.addCommentToPost e postId author content).2.posts.map Post.id = s.posts.map Post.id := by
  unfold PostService.addCommentToPost
  split
  · rename_i q posts' h
    simpa using updateFirst_ids (fun post => (post.addComment author content e.now).2)
      (fun p => rfl) postId s.posts q posts' h
  · rfl

theorem likePost_ids (e : Env) (s : PostService) (postId : Int) :
    (s.likePost e postId).2.posts.map Post.id = s.posts.map Post.id := by
  unfold PostService.likePost
  split
  · rename_i q posts' h
    simpa using updateFirst_ids Post.incrementLikes (fun p => rfl) postId s.posts q posts' h
  · rfl

theorem unlikePost_ids (e : Env) (s : PostService) (postId : Int) :
    (s.unlikePost e postId).2.posts.map Post.id = s.posts.map Post.id := by
  unfold PostService.unlikePost
  split
  · rename_i q posts' h
    simpa using updateFirst_ids _ decrementLikes_id postId s.posts q posts' h
  · rfl

theorem construct_nextIdInv (e : Env) (file : DbFile) :
    NextIdInv (PostService.construct e file) := by
  unfold NextIdInv PostService.construct PostService.loadPosts
  cases file <;> simp [maxIdFrom, PostService.updateNextId]

theorem maxIdFrom_congr (m : Int) (ps qs : List Post) (h : ps.map Post.id = qs.map Post.id) :
    maxIdFrom m ps = maxIdFrom m qs := by
  rw [maxIdFrom_eq_foldl, maxIdFrom_eq_foldl, h]

theorem step_nextIdInv (s : PostService) (ec : Env × Call) (h : NextIdInv s) :
    NextIdInv (s.step ec) := by
  obtain ⟨e, c⟩ := ec
  unfold NextIdInv at *
  cases c with
  | create author content type =>
    simp only [PostService.step, createPost_nextId, createPost_posts, maxIdFrom_append,
      createPost_fst, (makePost_fields _ _ _ _ _).1]
    rw [h]
    have := maxIdFrom_ge s.posts 0
    rw [max_eq_right (by omega)]
  | addComment postId author content =>
    simp only [PostService.step, addCommentToPost_nextId]
    rw [h, maxIdFrom_congr 0 _ _ (addCommentToPost_ids e s postId author content)]
  | like postId =>
    simp only [PostService.step, likePost_nextId]
    rw [h, maxIdFrom_congr 0 _ _ (likePost_ids e s postId)]
  | unlike postId =>
    simp only [PostService.step, unlikePost_nextId]
    rw [h, maxIdFrom_congr 0 _ _ (unlikePost_ids e s postId)]

theorem run_nextIdInv (calls : List (Env × Call)) :
    ∀ s : PostService, NextIdInv s → NextIdInv (s.run calls) := by
  induction calls with
  | nil => intro s h; exact h
  | cons ec rest ih =>
    intro s h
    exact ih (s.step ec) (step_nextIdInv s ec h)

theorem reachable_nextIdInv (e0 : Env) (file : DbFile) (calls : List (Env × Call)) :
    NextIdInv ((PostService.construct e0 file).run calls) :=
  run_nextIdInv calls _ (construct_nextIdInv e0 file)

/-- C2: in every state reached by constructing the catalog on any file (absent,
unreadable or any document) and applying any sequence of create / addComment / like /
unlike calls, `createPost` returns a post whose id is the pre-call `nextId`, which is
strictly greater than the id of every post already stored, so no stored id is reused. -/
theorem createPost_id_fresh (e0 : Env) (file : DbFile) (calls : List (Env × Call))
    (e : Env) (author content type : String) :
    (((PostService.construct e0 file).run calls).createPost e author content type).1.id
        = ((PostService.construct e0 file).run calls).nextId ∧
    (∀ p ∈ ((PostService.construct e0 file).run calls).posts,
      p.id < (((PostService.construct e0 file).run calls).createPost e author content type).1.id) ∧
    (∀ p ∈ ((PostService.construct e0 file).run calls).posts,
      p.id ≠ (((PostService.construct e0 file).run calls).createPost e author content type).1.id) := by
  have hinv := reachable_nextIdInv e0 file calls
  generalize (PostService.construct e0 file).run calls = s at hinv
  have hid : (s.createPost e author content type).1.id = s.nextId := by
    rw [createPost_fst]; exact (makePost_fields _ _ _ _ _).1
  have hlt : ∀ p ∈ s.posts, p.id < s.nextId := by
    intro p hp
    have := maxIdFrom_mem s.posts 0 p hp
    unfold NextIdInv at hinv
    omega
  refine ⟨hid, ?_, ?_⟩
  · intro p hp; rw [hid]; exact hlt p hp
  · intro p hp; rw [hid]; exact ne_of_lt (hlt p hp)

theorem maxIdFrom_eq_largest (posts : List Post) :
    ∀ a : Int, maxIdFrom a posts
      = (match largestId posts with
         | none => a
         | some m => max a m) := by
  induction posts with
  | nil => intro a; rfl
  | cons p rest ih =>
    intro a
    simp only [maxIdFrom, Post.getId, largestId]
    rw [ih]
    have ha : (if p.id > a then p.id else a) = max a p.id := by
      by_cases h : p.id > a
      · simp [h, max_eq_right (le_of_lt h)]
      · simp [h, max_eq_left (not_lt.mp h)]
    rw [ha]
    cases largestId rest with
    | none => rfl
    | some m => simp [max_assoc]

theorem nextIdInv_floored (s : PostService) (h : NextIdInv s) :
    s.nextId = flooredNextId s.posts := by
  unfold NextIdInv at h
  rw [h, maxIdFrom_eq_largest, flooredNextId]
  cases largestId s.posts with
  | none => rfl
  | some m => simp [add_comm]

/-- C4: for every author, content and type string `createPost` returns a post carrying
that author and content, with `likes = 0` and no comments, whose kind is `type` itself
when `type` is exactly "lost", "found", "help", "events" or "academic" (with
`itemStatus` equal to it for the first two) and "general" for every other string,
among them the empty string and differently-cased spellings. -/
theorem createPost_result (e : Env) (s : PostService) (author content type : String) :
    (s.createPost e author content type).1.author = author ∧
    (s.createPost e author content type).1.content = content ∧
    (s.createPost e author content type).1.likes = 0 ∧
    (s.createPost e author content type).1.comments = [] ∧
    (s.createPost e author content type).1.getType
      = (if type = "lost" ∨ type = "found" ∨ type = "help" ∨ type = "events" ∨
            type = "academic" then type else "general") ∧
    (s.createPost e author content type).1.cls
      = (if type = "lost" ∨ type = "found" then PostClass.LostAndFoundPost type
         else if type = "help" then PostClass.HelpRequestPost
         else if type = "events" then PostClass.EventsPost
         else if type = "academic" then PostClass.AcademicPost
         else PostClass.GeneralPost) ∧
    (s.createPost e author content "").1.getType = "general" ∧
    (s.createPost e author content "Lost").1.getType = "general" ∧
    (s.createPost e author content "event").1.getType = "general" := by
  have hf := makePost_fields type s.nextId author content e.now
  refine ⟨hf.2.1, hf.2.2.1, hf.2.2.2.2.1, hf.2.2.2.2.2, ?_, ?_, ?_, ?_, ?_⟩
  · rw [createPost_fst]
    unfold makePost
    by_cases h1 : type = "lost"
    · simp [h1, Post.create, Post.getType]
    by_cases h2 : type = "found"
    · simp [h2, Post.create, Post.getType]
    by_cases h3 : type = "help"
    · simp [h3, Post.create, Post.getType]
    by_cases h4 : type = "events"
    · simp [h4, Post.create, Post.getType]
    by_cases h5 : type = "academic"
    · simp [h5, Post.create, Post.getType]
    simp [h1, h2, h3, h4, h5, Post.create, Post.getType]
  · rw [createPost_fst]
    unfold makePost
    by_cases h1 : type = "lost"
    · simp [h1, Post.create]
    by_cases h2 : type = "found"
    · simp [h2, Post.create]
    by_cases h3 : type = "help"
    · simp [h3, Post.create]
    by_cases h4 : type = "events"
    · simp [h4, Post.create]
    by_cases h5 : type = "academic"
    · simp [h5, Post.create]
    simp [h1, h2, h3, h4, h5, Post.create]
  · rw [createPost_fst]; simp [makePost, Post.create, Post.getType]
  · rw [createPost_fst]; simp [makePost, Post.create, Post.getType]
  · rw [createPost_fst]; simp [makePost, Post.create, Post.getType]

theorem firstWithId_append (postId : Int) (p : Post) (suf : List Post) (hp : p.id = postId) :
    ∀ pre : List Post, (∀ x ∈ pre, x.id ≠ postId) →
      firstWithId postId (pre ++ p :: suf) = some p := by
  intro pre
  induction pre with
  | nil => intro _; simp [firstWithId, hp]
  | cons x rest ih =>
    intro h
    have hx : x.id ≠ postId := h x (List.mem_cons_self _ _)
    have := ih (fun y hy => h y (List.mem_cons_of_mem _ hy))
    simpa [firstWithId, hx] using this

theorem updateFirst_forall (P : Post → Prop) (f : Post → Post) (hf : ∀ p, P p → P (f p))
    (postId : Int) (posts : List Post) (q : Post) (posts' : List Post)
    (h : updateFirst f postId posts = some (q, posts')) (hall : ∀ p ∈ posts, P p) :
    ∀ p ∈ posts', P p := by
  obtain ⟨pre, p, suf, h1, -, -, -, h5⟩ := updateFirst_some f postId posts q posts' h
  subst h1 h5
  intro x hx
  simp only [List.mem_append, List.mem_cons] at hx hall
  rcases hx with hx | hx | hx
  · exact hall x (Or.inl hx)
  · rw [hx]; exact hf p (hall p (Or.inr (Or.inl rfl)))
  · exact hall x (Or.inr (Or.inr hx))

/-- C5: when the catalog holds a post with id `postId`, `unlikePost(postId)` returns a
post (not `nullptr`): the first stored post with that id, as it stands in the catalog
after the call, with id, author, content, timestamp, comments and class as before; its
likes stay 0 if they were 0 and drop by exactly 1 if they were positive. -/
theorem unlikePost_found (e : Env) (s : PostService) (postId : Int)
    (h : ∃ p ∈ s.posts, p.id = postId) :
    ∃ p q, firstWithId postId s.posts = some p ∧
      (s.unlikePost e postId).1 = some q ∧
      firstWithId postId (s.unlikePost e postId).2.posts = some q ∧
      q.id = postId ∧ q.author = p.author ∧ q.content = p.content ∧
      q.timestamp = p.timestamp ∧ q.comments = p.comments ∧ q.cls = p.cls ∧
      (p.likes = 0 → q.likes = 0) ∧ (0 < p.likes → q.likes = p.likes - 1) := by
  cases hu : updateFirst Post.decrementLikes postId s.posts with
  | none =>
    obtain ⟨p, hp, hid⟩ := h
    exact absurd hid ((updateFirst_eq_none_iff _ _ _).mp hu p hp)
  | some r =>
    obtain ⟨q, posts'⟩ := r
    obtain ⟨pre, p, suf, h1, h2, h3, h4, h5⟩ :=
      updateFirst_some Post.decrementLikes postId s.posts q posts' hu
    have hq : q.id = postId := by rw [h4, decrementLikes_id, h3]
    refine ⟨p, q, ?_, ?_, ?_, hq, ?_⟩
    · rw [h1]; exact firstWithId_append postId p suf h3 pre h2
    · simp [PostService.unlikePost, hu]
    · simp only [PostService.unlikePost, hu, savePosts_posts]
      rw [h5, ← h4]; exact firstWithId_append postId q suf hq pre h2
    · subst h4
      unfold Post.decrementLikes
      split
      · refine ⟨rfl, rfl, rfl, rfl, rfl, ?_, ?_⟩
        · intro h0; omega
        · intro _; rfl
      · refine ⟨rfl, rfl, rfl, rfl, rfl, ?_, ?_⟩
        · intro h0; exact h0
        · intro hpos; omega

/-- Witness of C5 on a catalog holding one post with id 1. -/
theorem unlikePost_found_witness :
    (∃ p ∈ onePostService.posts, p.id = 1) ∧
    ∃ p q, firstWithId 1 onePostService.posts = some p ∧
      (onePostService.unlikePost ⟨"now", true⟩ 1).1 = some q ∧
      firstWithId 1 (onePostService.unlikePost ⟨"now", true⟩ 1).2.posts = some q ∧
      q.id = 1 ∧ q.author = p.author ∧ q.content = p.content ∧
      q.timestamp = p.timestamp ∧ q.comments = p.comments ∧ q.cls = p.cls ∧
      (p.likes = 0 → q.likes = 0) ∧ (0 < p.likes → q.likes = p.likes - 1) :=
  ⟨⟨Post.create .GeneralPost 1 "a" "c" "t", by simp [onePostService], rfl⟩,
   unlikePost_found ⟨"now", true⟩ onePostService 1
     ⟨Post.create .GeneralPost 1 "a" "c" "t", by simp [onePostService], rfl⟩⟩

/-- C8: the scenario of section 8 on an empty catalog, for any clock readings and
whether or not the file can be written: the created post has type "lost", itemStatus
"lost", likes 0 and id 1; `likePost(1)` gives likes 1; two `unlikePost(1)` calls both
return the post and leave likes 0; `addCommentToPost(1, "bob", "found them!")` leaves
post 1 with exactly one comment, by "bob"; `addCommentToPost(999, ..)` returns
`nullptr`. -/
theorem scenario_holds (ev : Nat → Env) (author content : String) :
    (scenario1 ev).1.getType = "lost" ∧
    (scenario1 ev).1.cls = PostClass.LostAndFoundPost "lost" ∧
    (scenario1 ev).1.toJson.atKey "type" = some (Json.string "lost") ∧
    (scenario1 ev).1.toJson.atKey "itemStatus" = some (Json.string "lost") ∧
    (scenario1 ev).1.likes = 0 ∧
    (scenario1 ev).1.id = 1 ∧
    (scenario2 ev).1.map Post.likes = some 1 ∧
    (scenario2 ev).1.map Post.id = some 1 ∧
    (scenario3 ev).1.map Post.likes = some 0 ∧
    (scenario4 ev).1.map Post.likes = some 0 ∧
    (scenario4 ev).2.posts.map Post.likes = [0] ∧
    (scenario5 ev).1.map Comment.author = some "bob" ∧
    (scenario5 ev).2.posts.map (fun p => (p.id, p.comments.map Comment.author))
      = [(1, ["bob"])] ∧
    (scenario5 ev).2.posts.map (fun p => p.comments.map Comment.content)
      = [["found them!"]] ∧
    (scenario6 ev author content).1 = none ∧
    (scenario6 ev author content).2.posts = (scenario5 ev).2.posts := by
  simp [scenario1, scenario2, scenario3, scenario4, scenario5, scenario6,
    PostService.construct, PostService.loadPosts, PostService.createPost, makePost,
    Post.create, PostService.likePost, PostService.unlikePost, PostService.addCommentToPost,
    updateFirst, Post.getId, Post.incrementLikes, Post.decrementLikes, Post.addComment,
    Comment.create, Post.getType, Post.toJson, Post.baseToJson, Json.set, assignKey,
    Json.atKey, lookupKey]

/-- C9: `addCommentToPost`, `likePost` and `unlikePost` return `nullptr` exactly when no
stored post has the given id; in that case the whole state (the posts with their likes
and comments, `nextId`, and the file) is left as it was, so nothing was saved. -/
theorem notFound_iff_absent (e : Env) (s : PostService) (postId : Int)
    (author content : String) :
    ((s.addCommentToPost e postId author content).1 = none ↔ ∀ p ∈ s.posts, p.id ≠ postId) ∧
    ((s.likePost e postId).1 = none ↔ ∀ p ∈ s.posts, p.id ≠ postId) ∧
    ((s.unlikePost e postId).1 = none ↔ ∀ p ∈ s.posts, p.id ≠ postId) ∧
    ((s.addCommentToPost e postId author content).1 = none →
      (s.addCommentToPost e postId author content).2 = s) ∧
    ((s.likePost e postId).1 = none → (s.likePost e postId).2 = s) ∧
    ((s.unlikePost e postId).1 = none → (s.unlikePost e postId).2 = s) := by
  refine ⟨?_, ?_, ?_, ?_, ?_, ?_⟩
  · rw [← updateFirst_eq_none_iff (fun post => (post.addComment author content e.now).2)]
    unfold PostService.addCommentToPost
    split <;> simp_all
  · rw [← updateFirst_eq_none_iff Post.incrementLikes]
    unfold PostService.likePost
    split <;> simp_all
  · rw [← updateFirst_eq_none_iff Post.decrementLikes]
    unfold PostService.unlikePost
    split <;> simp_all
  · unfold PostService.addCommentToPost
    split <;> simp
  · unfold PostService.likePost
    split <;> simp
  · unfold PostService.unlikePost
    split <;> simp

theorem step_likesNonneg (s : PostService) (ec : Env × Call) (h : LikesNonneg s) :
    LikesNonneg (s.step ec) := by
  obtain ⟨e, c⟩ := ec
  unfold LikesNonneg at *
  cases c with
  | create author content type =>
    simp only [PostService.step, createPost_posts, createPost_fst]
    intro p hp
    rcases List.mem_append.mp hp with hp | hp
    · exact h p hp
    · rw [List.mem_singleton.mp hp, (makePost_fields _ _ _ _ _).2.2.2.2.1]
  | addComment postId author content =>
    simp only [PostService.step, PostService.addCommentToPost]
    split
    · rename_i q posts' hu
      simpa using updateFirst_forall (fun p => 0 ≤ p.likes)
        (fun post => (post.addComment author content e.now).2) (fun p hp => hp)
        postId s.posts q posts' hu h
    · exact h
  | like postId =>
    simp only [PostService.step, PostService.likePost]
    split
    · rename_i q posts' hu
      simpa using updateFirst_forall (fun p => 0 ≤ p.likes) Post.incrementLikes
        (fun p hp => by simp only [Post.incrementLikes]; omega) postId s.posts q posts' hu h
    · exact h
  | unlike postId =>
    simp only [PostService.step, PostService.unlikePost]
    split
    · rename_i q posts' hu
      simpa using updateFirst_forall (fun p => 0 ≤ p.likes) Post.decrementLikes
        (fun p hp => by
          unfold Post.decrementLikes
          split
          · show 0 ≤ p.likes - 1
            omega
          · exact hp) postId s.posts q posts' hu h
    · exact h

theorem run_likesNonneg (calls : List (Env × Call)) :
    ∀ s : PostService, LikesNonneg s → LikesNonneg (s.run calls) := by
  induction calls with
  | nil => intro s h; exact h
  | cons ec rest ih =>
    intro s h
    exact ih (s.step ec) (step_likesNonneg s ec h)

/-- C1 (code evaluated at the failing input): after two creates the catalog stores the
posts with ids 1, 2 in that order; saving it and constructing a fresh catalog on the
saved file gives the same two posts in the order 2, 1. -/
theorem roundtrip_reverses_two_posts :
    twoPosts.posts.map Post.id = [1, 2] ∧
    twoPostsReloaded.posts.map Post.id = [2, 1] ∧
    twoPostsReloaded.posts = twoPosts.posts.reverse ∧
    twoPostsReloaded.posts ≠ twoPosts.posts := by
  decide

/-- C7 (code evaluated at the failing input): the catalog constructed on the file it
saved after two creates lists the post with id 1 before the post with id 2, the oldest
first; before the restart the listing was 2, 1. -/
theorem listing_oldest_first_after_reload :
    listedIds twoPosts.getAllPostsAsJson = [some 2, some 1] ∧
    listedIds twoPostsReloaded.getAllPostsAsJson = [some 1, some 2] ∧
    twoPostsReloaded.getAllPostsAsJson
      = Json.array (twoPosts.posts.map Post.toJson) := by
  refine ⟨by decide, by decide, by rfl⟩

/-! ## Which elements `loadPosts` keeps -/

theorem get_string_isSome (j : Json) : j.get_string.isSome = isString j := by
  cases j <;> rfl

theorem get_long_long_isSome (j : Json) : j.get_long_long.isSome = isInteger j := by
  cases j <;> rfl

theorem get_int_isSome (j : Json) : j.get_int.isSome = isInteger j := by
  cases j <;> rfl

theorem contains_eq_atKey (j : Json) (key : String) :
    j.contains key = (j.atKey key).isSome := by
  cases j <;> rfl

theorem isSome_bind_conv {α β : Type} (o : Option Json) (conv : Json → Option α)
    (ok : Json → Bool) (hconv : ∀ j, (conv j).isSome = ok j) (f : α → Option β) (b : Bool)
    (h : ∀ a, (f a).isSome = b) :
    (o.bind fun j => (conv j).bind f).isSome
      = ((match o with
          | some v => ok v
          | none => false) && b) := by
  cases o with
  | none => rfl
  | some v =>
    have hv := hconv v
    cases hc : conv v with
    | none => rw [hc] at hv; simp [hc, ← hv]
    | some a => rw [hc] at hv; simp [hc, ← hv, h a]

theorem commentOfJson_isSome (c : Json) : (commentOfJson c).isSome = commentShape c := by
  unfold commentOfJson commentShape hasKeyWith
  refine isSome_bind_conv _ _ _ get_string_isSome _ _ (fun author => ?_)
  refine isSome_bind_conv _ _ _ get_string_isSome _ _ (fun content => ?_)
  have := isSome_bind_conv (c.atKey "timestamp") Json.get_string isString get_string_isSome
    (fun timestamp => some (Comment.restore author content timestamp)) true (fun _ => rfl)
  simpa using this

theorem loadComments_isSome (c_items : List Json) :
    ∀ p : Post, (loadComments p c_items).isSome = c_items.all commentShape := by
  induction c_items with
  | nil => intro p; rfl
  | cons c rest ih =>
    intro p
    have hc := commentOfJson_isSome c
    cases h : commentOfJson c with
    | none => rw [h] at hc; simp [loadComments, h, ← hc]
    | some cm => rw [h] at hc; simp [loadComments, h, ← hc, ih]

theorem loadItem_isSome (now : String) (item : Json) :
    (loadItem now item).isSome = elementLoadable item := by
  unfold loadItem elementLoadable hasKeyWith
  refine isSome_bind_conv _ _ _ get_string_isSome _ _ (fun type => ?_)
  refine isSome_bind_conv _ _ _ get_long_long_isSome _ _ (fun id => ?_)
  refine isSome_bind_conv _ _ _ get_string_isSome _ _ (fun author => ?_)
  refine isSome_bind_conv _ _ _ get_string_isSome _ _ (fun content => ?_)
  refine isSome_bind_conv _ _ _ get_string_isSome _ _ (fun timestamp => ?_)
  rw [contains_eq_atKey]
  cases hl : item.atKey "likes" with
  | none =>
    cases hc : item.atKey "comments" with
    | none => simp
    | some v => cases v <;> simp [loadComments_isSome]
  | some l =>
    have hg := get_int_isSome l
    cases hgi : l.get_int with
    | none => rw [hgi] at hg; simp [hgi, ← hg]
    | some likes =>
      rw [hgi] at hg
      cases hc : item.atKey "comments" with
      | none => simp [hgi, ← hg]
      | some v => cases v <;> simp [hgi, ← hg, loadComments_isSome]

theorem filterMap_all_some (f : Json → Option Post) (items : List Json)
    (h : ∀ x ∈ items, (f x).isSome = true) :
    (items.filterMap f).map some = items.map f := by
  induction items with
  | nil => rfl
  | cons x rest ih =>
    have hx := h x (List.mem_cons_self _ _)
    have hrest := ih (fun y hy => h y (List.mem_cons_of_mem _ hy))
    cases hfx : f x with
    | none => rw [hfx] at hx; cases hx
    | some p => simp [List.filterMap_cons, hfx, hrest]

theorem construct_document_posts (e : Env) (j : Json) :
    (PostService.construct e (.document j)).posts = j.iterate.filterMap (loadItem e.now) := rfl

theorem specElementShape_loadable (item : Json) (h : specElementShape item = true) :
    elementLoadable item = true := by
  unfold specElementShape at h
  unfold elementLoadable
  simp only [Bool.and_eq_true] at h ⊢
  obtain ⟨h1, h2, h3, h4, h5, h6, h7⟩ := h
  refine ⟨h1, h2, h3, h4, h5, h6, ?_⟩
  · cases hc : item.atKey "comments" with
    | none => rfl
    | some v => rw [hc] at h7; cases v <;> simp_all

theorem loadable_spec_or_comments (item : Json) (h : elementLoadable item = true) :
    specElementShape item = true ∨
      ∃ v, item.atKey "comments" = some v ∧ v.is_array = false := by
  unfold elementLoadable at h
  unfold specElementShape
  simp only [Bool.and_eq_true] at h ⊢
  obtain ⟨h1, h2, h3, h4, h5, h6, h7⟩ := h
  cases hc : item.atKey "comments" with
  | none => left; exact ⟨h1, h2, h3, h4, h5, h6, rfl⟩
  | some v =>
    cases v with
    | array c_items =>
      left
      rw [hc] at h7
      exact ⟨h1, h2, h3, h4, h5, h6, h7⟩
    | _ => right; exact ⟨_, rfl, rfl⟩

/-- C6 (as stated, refuted): a document made of one well-formed element and one
element whose `comments` value is a string (a wrongly-shaped value) loads as two
posts, not one: the second element is not skipped. -/
theorem wrong_shape_comments_not_skipped :
    specElementShape goodElement = true ∧
    specElementShape stringCommentsElement = false ∧
    (PostService.construct ⟨"now", true⟩
      (.document (.array [goodElement, stringCommentsElement]))).posts.map Post.id = [7, 8] ∧
    (PostService.construct ⟨"now", true⟩
      (.document (.array [goodElement, stringCommentsElement]))).posts.length ≠ 1 := by
  decide

/-- C6 (amended): for a document that is an array of well-formed elements plus, at any
position, one malformed element, where a `comments` value that is not an array does
not count as a wrong shape (so malformed means: a required field missing, or a
wrongly-shaped value other than such a `comments` value), `loadPosts` returns and the
catalog holds exactly the posts of the well-formed elements, one each, in document
order.  The malformed element is malformed in the words of the spec, and each of the
others is well-formed in those words or has a `comments` value that is not an array. -/
theorem load_skips_malformed (e : Env) (pre suf : List Json) (bad : Json)
    (hpre : ∀ x ∈ pre, elementLoadable x = true)
    (hsuf : ∀ x ∈ suf, elementLoadable x = true)
    (hbad : elementLoadable bad = false) :
    (PostService.construct e (.document (.array (pre ++ bad :: suf)))).posts.map some
        = (pre ++ suf).map (loadItem e.now) ∧
    (PostService.construct e (.document (.array (pre ++ bad :: suf)))).posts.length
        = (pre ++ suf).length ∧
    (PostService.construct e (.document (.array (pre ++ bad :: suf)))).posts
        = (PostService.construct e (.document (.array (pre ++ suf)))).posts ∧
    specElementShape bad = false ∧
    (∀ x ∈ pre ++ suf, specElementShape x = true ∨
      ∃ v, x.atKey "comments" = some v ∧ v.is_array = false) := by
  have hnone : loadItem e.now bad = none := by
    have := loadItem_isSome e.now bad
    rw [hbad] at this
    cases h : loadItem e.now bad with
    | none => rfl
    | some p => rw [h] at this; cases this
  have hall : ∀ x ∈ pre ++ suf, (loadItem e.now x).isSome = true := by
    intro x hx
    rw [loadItem_isSome]
    rcases List.mem_append.mp hx with hx | hx
    · exact hpre x hx
    · exact hsuf x hx
  have hposts : (PostService.construct e (.document (.array (pre ++ bad :: suf)))).posts
      = (pre ++ suf).filterMap (loadItem e.now) := by
    rw [construct_document_posts]
    simp [Json.iterate, List.filterMap_append, List.filterMap_cons, hnone]
  have hmap := filterMap_all_some (loadItem e.now) (pre ++ suf) hall
  refine ⟨by rw [hposts]; exact hmap, ?_, ?_, ?_, ?_⟩
  · rw [hposts]
    have := congrArg List.length hmap
    simpa using this
  · rw [hposts, construct_document_posts]; rfl
  · cases hs : specElementShape bad with
    | false => rfl
    | true => rw [specElementShape_loadable bad hs] at hbad; cases hbad
  · intro x hx
    apply loadable_spec_or_comments
    rcases List.mem_append.mp hx with hx | hx
    · exact hpre x hx
    · exact hsuf x hx

/-- Witness of C6 (amended): an element without `id` between two well-formed ones. -/
theorem load_skips_malformed_witness :
    (∀ x ∈ [goodElement], elementLoadable x = true) ∧
    (∀ x ∈ [stringCommentsElement], elementLoadable x = true) ∧
    elementLoadable missingIdElement = false ∧
    (PostService.construct ⟨"now", true⟩ (.document (.array
        ([goodElement] ++ missingIdElement :: [stringCommentsElement])))).posts.map some
      = ([goodElement] ++ [stringCommentsElement]).map (loadItem "now") ∧
    (PostService.construct ⟨"now", true⟩ (.document (.array
        ([goodElement] ++ missingIdElement :: [stringCommentsElement])))).posts.length
      = ([goodElement] ++ [stringCommentsElement]).length ∧
    (PostService.construct ⟨"now", true⟩ (.document (.array
        ([goodElement] ++ missingIdElement :: [stringCommentsElement])))).posts
      = (PostService.construct ⟨"now", true⟩ (.document (.array
        ([goodElement] ++ [stringCommentsElement])))).posts ∧
    specElementShape missingIdElement = false ∧
    (∀ x ∈ [goodElement] ++ [stringCommentsElement], specElementShape x = true ∨
      ∃ v, x.atKey "comments" = some v ∧ v.is_array = false) :=
  ⟨by decide, by decide, by decide,
   load_skips_malformed ⟨"now", true⟩ [goodElement] [stringCommentsElement] missingIdElement
     (by decide) (by decide) (by decide)⟩

/-! ## Identity of posts -/

theorem run_induction (P : PostService → Prop)
    (hstep : ∀ s ec, P s → P (PostService.step s ec)) (calls : List (Env × Call)) :
    ∀ s : PostService, P s → P (s.run calls) := by
  induction calls with
  | nil => intro s h; exact h
  | cons ec rest ih =>
    intro s h
    exact ih (s.step ec) (hstep s ec h)

theorem step_ids (s : PostService) (ec : Env × Call) :
    (s.step ec).posts.map Post.id = s.posts.map Post.id ∨
    ∃ q : Post, q.id = s.nextId ∧ (s.step ec).posts = s.posts ++ [q] := by
  obtain ⟨e, c⟩ := ec
  cases c with
  | create author content type =>
    right
    exact ⟨(s.createPost e author content type).1,
      by rw [createPost_fst]; exact (makePost_fields _ _ _ _ _).1, createPost_posts _ _ _ _ _⟩
  | addComment postId author content => left; exact addCommentToPost_ids e s postId author content
  | like postId => left; exact likePost_ids e s postId
  | unlike postId => left; exact unlikePost_ids e s postId

theorem step_ids_prefix (s : PostService) (ec : Env × Call) :
    List.IsPrefix (s.posts.map Post.id) ((s.step ec).posts.map Post.id) := by
  rcases step_ids s ec with h | ⟨q, -, h⟩
  · rw [h]
  · rw [h, List.map_append]; exact List.prefix_append _ _

theorem idsPositiveDistinct_nil : IdsPositiveDistinct [] :=
  And.intro (fun _ hp => nomatch hp) List.nodup_nil

theorem step_idsPositiveDistinct (s : PostService) (ec : Env × Call)
    (h : NextIdInv s ∧ IdsPositiveDistinct s.posts) :
    NextIdInv (s.step ec) ∧ IdsPositiveDistinct (s.step ec).posts := by
  obtain ⟨hinv, hpos, hnd⟩ := h
  refine ⟨step_nextIdInv s ec hinv, ?_⟩
  unfold IdsPositiveDistinct
  rcases step_ids s ec with hids | ⟨q, hq, hposts⟩
  · rw [hids]
    refine ⟨?_, hnd⟩
    intro p hp
    have hmem : p.id ∈ (s.step ec).posts.map Post.id := List.mem_map_of_mem _ hp
    rw [hids] at hmem
    obtain ⟨p0, hp0, hid⟩ := List.mem_map.mp hmem
    rw [← hid]; exact hpos p0 hp0
  · have hge := maxIdFrom_ge s.posts 0
    unfold NextIdInv at hinv
    rw [hposts]
    refine ⟨?_, ?_⟩
    · intro p hp
      rcases List.mem_append.mp hp with hp | hp
      · exact hpos p hp
      · rw [List.mem_singleton.mp hp, hq]; omega
    · rw [List.map_append, List.nodup_append]
      refine ⟨hnd, by simp, ?_⟩
      intro a ha hb
      obtain ⟨p0, hp0, hid⟩ := List.mem_map.mp ha
      have hle := maxIdFrom_mem s.posts 0 p0 hp0
      simp only [List.map_cons, List.map_nil, List.mem_singleton] at hb
      omega

/-! ## Frame of the mutations -/

theorem exists_first (postId : Int) :
    ∀ posts : List Post, (∃ p ∈ posts, p.id = postId) →
      ∃ pre p suf, posts = pre ++ p :: suf ∧ (∀ x ∈ pre, x.id ≠ postId) ∧ p.id = postId := by
  intro posts
  induction posts with
  | nil => rintro ⟨p, hp, -⟩; cases hp
  | cons post rest ih =>
    intro h
    by_cases hid : post.id = postId
    · exact ⟨[], post, rest, rfl, (fun _ hx => nomatch hx), hid⟩
    · obtain ⟨p, hp, hpid⟩ := h
      have hrest : ∃ p ∈ rest, p.id = postId := by
        rcases List.mem_cons.mp hp with hp | hp
        · subst hp; exact absurd hpid hid
        · exact ⟨p, hp, hpid⟩
      obtain ⟨pre, q, suf, h1, h2, h3⟩ := ih hrest
      refine ⟨post :: pre, q, suf, by rw [h1]; rfl, ?_, h3⟩
      intro x hx
      rcases List.mem_cons.mp hx with hx | hx
      · rw [hx]; exact hid
      · exact h2 x hx

theorem updateFirst_append (f : Post → Post) (postId : Int) (p : Post) (suf : List Post)
    (hp : p.id = postId) :
    ∀ pre : List Post, (∀ x ∈ pre, x.id ≠ postId) →
      updateFirst f postId (pre ++ p :: suf) = some (f p, pre ++ f p :: suf) := by
  intro pre
  induction pre with
  | nil => intro _; simp [updateFirst, Post.getId, hp]
  | cons x rest ih =>
    intro h
    have hx : x.id ≠ postId := h x (List.mem_cons_self _ _)
    have hrest := ih (fun y hy => h y (List.mem_cons_of_mem _ hy))
    simp [updateFirst, Post.getId, hx, hrest]

theorem updateFirst_map {β : Type} (g : Post → β) (f : Post → Post)
    (hf : ∀ p, g (f p) = g p) (postId : Int) (posts : List Post) (q : Post)
    (posts' : List Post) (h : updateFirst f postId posts = some (q, posts')) :
    posts'.map g = posts.map g := by
  obtain ⟨pre, p, suf, h1, -, -, -, h5⟩ := updateFirst_some f postId posts q posts' h
  simp [h1, h5, hf]

theorem decrementLikes_comments (p : Post) : p.decrementLikes.comments = p.comments := by
  unfold Post.decrementLikes; split <;> rfl

theorem likePost_comments (e : Env) (s : PostService) (postId : Int) :
    (s.likePost e postId).2.posts.map Post.comments = s.posts.map Post.comments := by
  unfold PostService.likePost
  split
  · rename_i q posts' h
    simpa using updateFirst_map Post.comments Post.incrementLikes (fun p => rfl) postId
      s.posts q posts' h
  · rfl

theorem unlikePost_comments (e : Env) (s : PostService) (postId : Int) :
    (s.unlikePost e postId).2.posts.map Post.comments = s.posts.map Post.comments := by
  unfold PostService.unlikePost
  split
  · rename_i q posts' h
    simpa using updateFirst_map Post.comments Post.decrementLikes decrementLikes_comments
      postId s.posts q posts' h
  · rfl

theorem likePost_at (e : Env) (s : PostService) (postId : Int) (pre suf : List Post)
    (p : Post) (h1 : s.posts = pre ++ p :: suf) (h2 : ∀ x ∈ pre, x.id ≠ postId)
    (h3 : p.id = postId) :
    (s.likePost e postId).1 = some p.incrementLikes ∧
    (s.likePost e postId).2.posts = pre ++ p.incrementLikes :: suf := by
  have hu := updateFirst_append Post.incrementLikes postId p suf h3 pre h2
  rw [← h1] at hu
  simp [PostService.likePost, hu]

theorem unlikePost_at (e : Env) (s : PostService) (postId : Int) (pre suf : List Post)
    (p : Post) (h1 : s.posts = pre ++ p :: suf) (h2 : ∀ x ∈ pre, x.id ≠ postId)
    (h3 : p.id = postId) :
    (s.unlikePost e postId).1 = some p.decrementLikes ∧
    (s.unlikePost e postId).2.posts = pre ++ p.decrementLikes :: suf := by
  have hu := updateFirst_append Post.decrementLikes postId p suf h3 pre h2
  rw [← h1] at hu
  simp [PostService.unlikePost, hu]

theorem addCommentToPost_at (e : Env) (s : PostService) (postId : Int) (author content : String)
    (pre suf : List Post) (p : Post) (h1 : s.posts = pre ++ p :: suf)
    (h2 : ∀ x ∈ pre, x.id ≠ postId) (h3 : p.id = postId) :
    (s.addCommentToPost e postId author content).1
        = some { author := author, content := content, timestamp := e.now } ∧
    (s.addCommentToPost e postId author content).2.posts
        = pre ++ { p with comments := p.comments ++
            [{ author := author, content := content, timestamp := e.now }] } :: suf := by
  have hu := updateFirst_append (fun post => (post.addComment author content e.now).2) postId
    p suf h3 pre h2
  rw [← h1] at hu
  simp only [PostService.addCommentToPost, hu, savePosts_posts]
  exact ⟨rfl, rfl⟩

/-- C12: when the catalog holds a post with id `postId`, `addCommentToPost` returns a new
comment carrying the given author and content (and the clock reading), and the first
stored post with that id gets its comment sequence extended by exactly that comment at
the end, all other posts staying as they were; `createPost` keeps every existing post
and appends a post without comments; `likePost` and `unlikePost` leave every comment
sequence as it was; an `addCommentToPost` that returns `nullptr` leaves all posts as
they were. -/
theorem comments_append_only (e : Env) (s : PostService) (postId : Int)
    (author content type : String) (h : ∃ p ∈ s.posts, p.id = postId) :
    (∃ pre p suf, s.posts = pre ++ p :: suf ∧ (∀ x ∈ pre, x.id ≠ postId) ∧ p.id = postId ∧
      (s.addCommentToPost e postId author content).1
          = some { author := author, content := content, timestamp := e.now } ∧
      (s.addCommentToPost e postId author content).2.posts
          = pre ++ { p with comments := p.comments ++
              [{ author := author, content := content, timestamp := e.now }] } :: suf) ∧
    (s.createPost e author content type).2.posts
        = s.posts ++ [(s.createPost e author content type).1] ∧
    (s.createPost e author content type).1.comments = [] ∧
    (s.likePost e postId).2.posts.map Post.comments = s.posts.map Post.comments ∧
    (s.unlikePost e postId).2.posts.map Post.comments = s.posts.map Post.comments ∧
    (∀ otherId : Int, (s.addCommentToPost e otherId author content).1 = none →
      (s.addCommentToPost e otherId author content).2.posts = s.posts) := by
  obtain ⟨pre, p, suf, h1, h2, h3⟩ := exists_first postId s.posts h
  refine ⟨⟨pre, p, suf, h1, h2, h3, addCommentToPost_at e s postId author content pre suf p h1 h2 h3⟩,
    createPost_posts _ _ _ _ _, (makePost_fields _ _ _ _ _).2.2.2.2.2,
    likePost_comments e s postId, unlikePost_comments e s postId, ?_⟩
  intro otherId
  unfold PostService.addCommentToPost
  split <;> simp

/-- Witness of C12 on a catalog in which two posts share the id 4. -/
theorem comments_append_only_witness :
    (∃ p ∈ sharedIdService.posts, p.id = 4) ∧
    ((∃ pre p suf, sharedIdService.posts = pre ++ p :: suf ∧ (∀ x ∈ pre, x.id ≠ 4) ∧ p.id = 4 ∧
      (sharedIdService.addCommentToPost ⟨"now", true⟩ 4 "bob" "hi").1
          = some { author := "bob", content := "hi", timestamp := (⟨"now", true⟩ : Env).now } ∧
      (sharedIdService.addCommentToPost ⟨"now", true⟩ 4 "bob" "hi").2.posts
          = pre ++ { p with comments := p.comments ++
              [{ author := "bob", content := "hi",
                 timestamp := (⟨"now", true⟩ : Env).now }] } :: suf) ∧
    (sharedIdService.createPost ⟨"now", true⟩ "bob" "hi" "lost").2.posts
        = sharedIdService.posts ++ [(sharedIdService.createPost ⟨"now", true⟩ "bob" "hi" "lost").1] ∧
    (sharedIdService.createPost ⟨"now", true⟩ "bob" "hi" "lost").1.comments = [] ∧
    (sharedIdService.likePost ⟨"now", true⟩ 4).2.posts.map Post.comments
        = sharedIdService.posts.map Post.comments ∧
    (sharedIdService.unlikePost ⟨"now", true⟩ 4).2.posts.map Post.comments
        = sharedIdService.posts.map Post.comments ∧
    (∀ otherId : Int, (sharedIdService.addCommentToPost ⟨"now", true⟩ otherId "bob" "hi").1 = none →
      (sharedIdService.addCommentToPost ⟨"now", true⟩ otherId "bob" "hi").2.posts
        = sharedIdService.posts)) :=
  ⟨⟨Post.create .GeneralPost 4 "a" "first" "t1", by simp [sharedIdService], rfl⟩,
   comments_append_only ⟨"now", true⟩ sharedIdService 4 "bob" "hi" "lost"
     ⟨Post.create .GeneralPost 4 "a" "first" "t1", by simp [sharedIdService], rfl⟩⟩

/-! ## Persistence on mutation, and construction without a document -/

/-- C16: constructing the catalog when `posts.json` is absent, or is there but does not
parse, returns a catalog without posts and with `nextId = 1`; `getAllPostsAsJson` is
then the empty array and the next `createPost` returns a post with id 1. -/
theorem construct_without_document (e0 e : Env) (author content type : String) :
    (PostService.construct e0 .absent).posts = [] ∧
    (PostService.construct e0 .absent).nextId = 1 ∧
    (PostService.construct e0 .absent).getAllPostsAsJson = .array [] ∧
    ((PostService.construct e0 .absent).createPost e author content type).1.id = 1 ∧
    (PostService.construct e0 .unparsable).posts = [] ∧
    (PostService.construct e0 .unparsable).nextId = 1 ∧
    (PostService.construct e0 .unparsable).getAllPostsAsJson = .array [] ∧
    ((PostService.construct e0 .unparsable).createPost e author content type).1.id = 1 :=
  ⟨rfl, rfl, rfl, (makePost_fields _ _ _ _ _).1, rfl, rfl, rfl, (makePost_fields _ _ _ _ _).1⟩

/-! ## What `loadPosts` makes of an element -/

theorem wrapSigned_32 (n : Int) (h : fitsInt n) : wrapSigned 32 n = n := by
  unfold fitsInt at h
  unfold wrapSigned
  norm_num at h ⊢
  omega

theorem wrapSigned_64 (n : Int) (h : fitsLongLong n) : wrapSigned 64 n = n := by
  unfold fitsLongLong at h
  unfold wrapSigned
  norm_num at h ⊢
  omega

theorem commentOfJson_entry (cj : Json) (c : Comment) (h : commentEntry cj c) :
    commentOfJson cj = some c := by
  obtain ⟨h1, h2, h3⟩ := h
  simp [commentOfJson, h1, h2, h3, Json.get_string, Comment.restore]

theorem loadComments_entries (cjs : List Json) (cms : List Comment)
    (h : List.Forall₂ commentEntry cjs cms) :
    ∀ q : Post, loadComments q cjs = some { q with comments := q.comments ++ cms } := by
  induction h with
  | nil => intro q; simp [loadComments]
  | cons hc _ ih =>
    intro q
    simp [loadComments, commentOfJson_entry _ _ hc, ih, Post.loadComment]

theorem loadComments_cls (cjs : List Json) :
    ∀ q p : Post, loadComments q cjs = some p → p.cls = q.cls := by
  induction cjs with
  | nil => intro q p h; simp [loadComments] at h; rw [← h]
  | cons cj rest ih =>
    intro q p h
    cases hc : commentOfJson cj with
    | none => simp [loadComments, hc] at h
    | some c =>
      simp only [loadComments, hc] at h
      exact ih (q.loadComment c) p h

theorem loadItem_fields (now : String) (item ji : Json) (type author content timestamp : String)
    (id likes : Int)
    (ht : item.atKey "type" = some (.string type))
    (hi : item.atKey "id" = some ji) (hid : ji.get_long_long = some id)
    (ha : item.atKey "author" = some (.string author))
    (hc : item.atKey "content" = some (.string content))
    (hts : item.atKey "timestamp" = some (.string timestamp))
    (hl : (if item.contains "likes" then (item.atKey "likes").bind Json.get_int else some 0)
      = some likes) :
    loadItem now item
      = (match item.atKey "comments" with
         | some (.array c_items) =>
           loadComments (((restorePost type id author content now).setTimestamp timestamp).setLikes
             likes) c_items
         | _ => some (((restorePost type id author content now).setTimestamp timestamp).setLikes
             likes)) := by
  simp [loadItem, ht, hi, hid, ha, hc, hts, hl, Json.get_string]

theorem loadItem_some (now : String) (item : Json) (p : Post) (h : loadItem now item = some p) :
    ∃ (type author content : String) (id : Int),
      (item.atKey "type").bind Json.get_string = some type ∧
      p.cls = (restorePost type id author content now).cls := by
  simp only [loadItem, Option.bind_eq_bind, Option.bind_eq_some] at h
  obtain ⟨jt, h1, type, h2, ji, h3, id, h4, ja, h5, author, h6, jc, h7, content, h8, jts, h9,
    timestamp, h10, likes, h11, h12⟩ := h
  refine ⟨type, author, content, id, by simp [h1, h2], ?_⟩
  split at h12
  · have hcls := loadComments_cls _ _ p h12
    rw [hcls]; rfl
  · simp only [Option.some.injEq] at h12
    rw [← h12]; rfl

theorem restorePost_eq_makePost (type : String) (id : Int) (author content now : String) :
    restorePost type id author content now = makePost type id author content now := rfl

theorem makePost_cls (type : String) (id id' : Int) (author content now author' content'
    now' : String) :
    (makePost type id author content now).cls = (makePost type id' author' content' now').cls := by
  unfold makePost
  repeat' split
  all_goals rfl

theorem makePost_classOk (type : String) (id : Int) (author content now : String) :
    classOk (makePost type id author content now) = true := by
  unfold makePost
  repeat' split
  all_goals rfl

theorem toJson_eq (p : Post) :
    p.toJson = .object ([("id", .number_integer p.id), ("author", .string p.author),
      ("content", .string p.content), ("timestamp", .string p.timestamp),
      ("likes", .number_integer p.likes), ("type", .string p.getType),
      ("comments", .array (p.comments.map Comment.toJson))] ++
      (match p.cls with
       | .LostAndFoundPost itemStatus => [("itemStatus", Json.string itemStatus)]
       | _ => [])) := by
  unfold Post.toJson
  cases hcls : p.cls <;> simp [Post.baseToJson, Json.set, assignKey]

theorem toJson_atKey (p : Post) :
    p.toJson.atKey "id" = some (.number_integer p.id) ∧
    p.toJson.atKey "author" = some (.string p.author) ∧
    p.toJson.atKey "content" = some (.string p.content) ∧
    p.toJson.atKey "timestamp" = some (.string p.timestamp) ∧
    p.toJson.atKey "likes" = some (.number_integer p.likes) ∧
    p.toJson.atKey "type" = some (.string p.getType) ∧
    p.toJson.atKey "comments" = some (.array (p.comments.map Comment.toJson)) ∧
    p.toJson.atKey "itemStatus"
      = (match p.cls with
         | .LostAndFoundPost itemStatus => some (Json.string itemStatus)
         | _ => none) := by
  rw [toJson_eq]
  cases hcls : p.cls <;> simp [Json.atKey, lookupKey]

theorem commentEntry_toJson (cms : List Comment) :
    List.Forall₂ commentEntry (cms.map Comment.toJson) cms := by
  induction cms with
  | nil => exact List.Forall₂.nil
  | cons c rest ih => exact List.Forall₂.cons ⟨rfl, rfl, rfl⟩ ih

theorem restorePost_getType (p : Post) (h : classOk p = true) (now : String) :
    (restorePost p.getType p.id p.author p.content now).cls = p.cls := by
  obtain ⟨id, author, content, timestamp, likes, comments, cls⟩ := p
  cases cls with
  | LostAndFoundPost st =>
    simp only [classOk, Bool.or_eq_true, beq_iff_eq] at h
    rcases h with h | h <;> subst h <;> simp [restorePost, Post.getType, Post.create]
  | _ => simp [restorePost, Post.getType, Post.create]

theorem loadItem_toJson (now : String) (p : Post) (h : Representable p) :
    loadItem now p.toJson = some p := by
  obtain ⟨hid, hlikes, hcls⟩ := h
  have hk := toJson_atKey p
  have hl : (if p.toJson.contains "likes" then (p.toJson.atKey "likes").bind Json.get_int
      else some 0) = some p.likes := by
    rw [contains_eq_atKey, hk.2.2.2.2.1]
    simp [Json.get_int, wrapSigned_32 p.likes hlikes]
  rw [loadItem_fields now p.toJson (.number_integer p.id) p.getType p.author p.content
    p.timestamp p.id p.likes hk.2.2.2.2.2.1 hk.1
    (by simp [Json.get_long_long, wrapSigned_64 p.id hid]) hk.2.1 hk.2.2.1 hk.2.2.2.1 hl]
  rw [hk.2.2.2.2.2.2.1]
  simp only []
  rw [loadComments_entries _ _ (commentEntry_toJson p.comments)]
  have hc := restorePost_getType p hcls now
  obtain ⟨id, author, content, timestamp, likes, comments, cls⟩ := p
  simp only [Post.setLikes, Post.setTimestamp] at hc ⊢
  simp only [Option.some.injEq, Post.mk.injEq]
  refine ⟨?_, ?_, ?_, trivial, trivial, ?_, hc⟩
  all_goals (simp only [restorePost]; repeat' split) <;> simp [Post.create]

/-! ## Classes of the posts a catalog holds -/

theorem loadItem_classOk (now : String) (item : Json) (p : Post)
    (h : loadItem now item = some p) : classOk p = true := by
  obtain ⟨type, author, content, id, -, hcls⟩ := loadItem_some now item p h
  have := makePost_classOk type id author content now
  rw [← restorePost_eq_makePost] at this
  unfold classOk at this ⊢
  rw [hcls]; exact this

theorem construct_classOk (e : Env) (file : DbFile) :
    ∀ p ∈ (PostService.construct e file).posts, classOk p = true := by
  cases file with
  | absent => intro p hp; cases hp
  | unparsable => intro p hp; cases hp
  | document j =>
    intro p hp
    rw [construct_document_posts] at hp
    obtain ⟨item, -, hitem⟩ := List.mem_filterMap.mp hp
    exact loadItem_classOk e.now item p hitem

theorem step_classOk (s : PostService) (ec : Env × Call)
    (h : ∀ p ∈ s.posts, classOk p = true) : ∀ p ∈ (s.step ec).posts, classOk p = true := by
  obtain ⟨e, c⟩ := ec
  cases c with
  | create author content type =>
    simp only [PostService.step, createPost_posts, createPost_fst]
    intro p hp
    rcases List.mem_append.mp hp with hp | hp
    · exact h p hp
    · rw [List.mem_singleton.mp hp]; exact makePost_classOk _ _ _ _ _
  | addComment postId author content =>
    simp only [PostService.step, PostService.addCommentToPost]
    split
    · rename_i q posts' hu
      simpa using updateFirst_forall (fun p => classOk p = true)
        (fun post => (post.addComment author content e.now).2) (fun p hp => hp)
        postId s.posts q posts' hu h
    · exact h
  | like postId =>
    simp only [PostService.step, PostService.likePost]
    split
    · rename_i q posts' hu
      simpa using updateFirst_forall (fun p => classOk p = true) Post.incrementLikes
        (fun p hp => hp) postId s.posts q posts' hu h
    · exact h
  | unlike postId =>
    simp only [PostService.step, PostService.unlikePost]
    split
    · rename_i q posts' hu
      simpa using updateFirst_forall (fun p => classOk p = true) Post.decrementLikes
        (fun p hp => by
          show classOk p.decrementLikes = true
          unfold Post.decrementLikes
          split
          · exact hp
          · exact hp)
        postId s.posts q posts' hu h
    · exact h

theorem reachable_classOk (e0 : Env) (file : DbFile) (calls : List (Env × Call)) :
    ∀ p ∈ ((PostService.construct e0 file).run calls).posts, classOk p = true :=
  run_induction (fun s => ∀ p ∈ s.posts, classOk p = true) step_classOk calls _
    (construct_classOk e0 file)

theorem itemStatus_iff (p : Post) (h : classOk p = true) :
    (p.toJson.contains "itemStatus" = true ↔ (p.getType = "lost" ∨ p.getType = "found")) ∧
    (p.toJson.contains "itemStatus" = true →
      p.toJson.atKey "itemStatus" = p.toJson.atKey "type") ∧
    List.Perm p.toJson.keys
      (baseKeys ++ if p.getType = "lost" ∨ p.getType = "found" then ["itemStatus"] else []) := by
  rw [contains_eq_atKey, (toJson_atKey p).2.2.2.2.2.2.2, (toJson_atKey p).2.2.2.2.2.1,
    toJson_eq]
  obtain ⟨id, author, content, timestamp, likes, comments, cls⟩ := p
  cases cls with
  | LostAndFoundPost st =>
    simp only [classOk, Bool.or_eq_true, beq_iff_eq] at h
    simp [Post.getType, h, Json.keys, baseKeys]
  | _ => simp [Post.getType, Json.keys, baseKeys]

/-- C13: for every post of a catalog reached from any file by any sequence of calls,
`toJson` is an object whose keys are id, author, content, timestamp, likes, type and
comments, each bound to the post's value, plus `itemStatus` exactly when the type is
"lost" or "found", and then bound to the same string as `type`; `comments` is the
array of the comments' objects in stored order, and a comment's object has exactly the
keys author, content and timestamp, bound to the comment's strings. -/
theorem toJson_shape (e0 : Env) (file : DbFile) (calls : List (Env × Call)) :
    (∀ p ∈ ((PostService.construct e0 file).run calls).posts,
      List.Perm p.toJson.keys
        (baseKeys ++ if p.getType = "lost" ∨ p.getType = "found" then ["itemStatus"] else []) ∧
      (p.toJson.contains "itemStatus" = true ↔ (p.getType = "lost" ∨ p.getType = "found")) ∧
      (p.toJson.contains "itemStatus" = true →
        p.toJson.atKey "itemStatus" = p.toJson.atKey "type") ∧
      p.toJson.atKey "id" = some (.number_integer p.id) ∧
      p.toJson.atKey "author" = some (.string p.author) ∧
      p.toJson.atKey "content" = some (.string p.content) ∧
      p.toJson.atKey "timestamp" = some (.string p.timestamp) ∧
      p.toJson.atKey "likes" = some (.number_integer p.likes) ∧
      p.toJson.atKey "type" = some (.string p.getType) ∧
      p.toJson.atKey "comments" = some (.array (p.comments.map Comment.toJson))) ∧
    (∀ c : Comment,
      c.toJson.keys = ["author", "content", "timestamp"] ∧
      c.toJson.atKey "author" = some (.string c.author) ∧
      c.toJson.atKey "content" = some (.string c.content) ∧
      c.toJson.atKey "timestamp" = some (.string c.timestamp)) := by
  refine ⟨?_, fun c => ⟨rfl, rfl, rfl, rfl⟩⟩
  intro p hp
  have hok := reachable_classOk e0 file calls p hp
  have hk := toJson_atKey p
  have hi := itemStatus_iff p hok
  exact ⟨hi.2.2, hi.1, hi.2.1, hk.1, hk.2.1, hk.2.2.1, hk.2.2.2.1, hk.2.2.2.2.1,
    hk.2.2.2.2.2.1, hk.2.2.2.2.2.2.1⟩

/-! ## Verbatim restore and the two dispatch chains -/

theorem restorePost_getType_eq (type : String) (id : Int) (author content now : String) :
    (restorePost type id author content now).getType
      = (if type = "lost" ∨ type = "found" ∨ type = "help" ∨ type = "events" ∨
            type = "academic" then type else "general") := by
  unfold restorePost
  by_cases h1 : type = "lost"
  · simp [h1, Post.create, Post.getType]
  by_cases h2 : type = "found"
  · simp [h2, Post.create, Post.getType]
  by_cases h3 : type = "help"
  · simp [h3, Post.create, Post.getType]
  by_cases h4 : type = "events"
  · simp [h4, Post.create, Post.getType]
  by_cases h5 : type = "academic"
  · simp [h5, Post.create, Post.getType]
  simp [h1, h2, h3, h4, h5, Post.create, Post.getType]

theorem restorePost_fields (type : String) (id : Int) (author content now : String) :
    (restorePost type id author content now).id = id ∧
    (restorePost type id author content now).author = author ∧
    (restorePost type id author content now).content = content ∧
    (restorePost type id author content now).comments = [] := by
  rw [restorePost_eq_makePost]
  have h := makePost_fields type id author content now
  exact ⟨h.1, h.2.1, h.2.2.1, h.2.2.2.2.2⟩

/-- C14 (as stated, refuted): an element with string type, author, content and
timestamp, the integer id 2^63 and the integer likes 2^32 is restored as a post with
id -2^63 and likes 0, not with the element's id and likes. -/
theorem restore_not_verbatim_for_wide_numbers :
    hugeNumbersElement.atKey "id" = some (.number_integer 9223372036854775808) ∧
    hugeNumbersElement.atKey "likes" = some (.number_integer 4294967296) ∧
    (loadItem "now" hugeNumbersElement).map Post.id = some (-9223372036854775808) ∧
    (loadItem "now" hugeNumbersElement).map Post.likes = some 0 ∧
    (PostService.construct ⟨"now", true⟩ (.document (.array [hugeNumbersElement]))).posts.map
      (fun p => (p.id, p.likes)) ≠ [(9223372036854775808, 4294967296)] := by
  refine ⟨rfl, rfl, by decide, by decide, by decide⟩

/-- C14 (amended): for every array element with a string type, an integer id in the
range of `long long`, string author, content and timestamp, optionally an integer
likes in the range of `int` and optionally a comments array of objects with string
author, content and timestamp, `loadPosts` reconstructs one post, at the element's
place among the restored posts, with exactly that id, author, content and timestamp
(whatever the clock reads at load time), likes equal to the element's likes or 0 when
the key is absent, the kind the type string selects, and the element's comments in the
same order. -/
theorem restore_verbatim (e : Env) (item : Json) (type author content timestamp : String)
    (id : Int) (likes : Option Int) (c_items : Option (List Json)) (cms : List Comment)
    (pre suf : List Json)
    (ht : item.atKey "type" = some (.string type))
    (hi : item.atKey "id" = some (.number_integer id)) (hidr : fitsLongLong id)
    (ha : item.atKey "author" = some (.string author))
    (hc : item.atKey "content" = some (.string content))
    (hts : item.atKey "timestamp" = some (.string timestamp))
    (hl : item.atKey "likes" = likes.map Json.number_integer)
    (hlr : ∀ n, likes = some n → fitsInt n)
    (hcm : item.atKey "comments" = c_items.map Json.array)
    (hcs : List.Forall₂ commentEntry (c_items.getD []) cms) :
    ∃ p, loadItem e.now item = some p ∧
      p.id = id ∧ p.author = author ∧ p.content = content ∧ p.timestamp = timestamp ∧
      p.likes = likes.getD 0 ∧ p.comments = cms ∧
      p.getType = (if type = "lost" ∨ type = "found" ∨ type = "help" ∨ type = "events" ∨
            type = "academic" then type else "general") ∧
      (PostService.construct e (.document (.array (pre ++ item :: suf)))).posts
        = pre.filterMap (loadItem e.now) ++ p :: suf.filterMap (loadItem e.now) := by
  have hlikes : (if item.contains "likes" then (item.atKey "likes").bind Json.get_int
      else some 0) = some (likes.getD 0) := by
    rw [contains_eq_atKey, hl]
    cases likes with
    | none => rfl
    | some n => simp [Json.get_int, wrapSigned_32 n (hlr n rfl)]
  have hload := loadItem_fields e.now item (.number_integer id) type author content timestamp
    id (likes.getD 0) ht hi (by simp [Json.get_long_long, wrapSigned_64 id hidr]) ha hc hts hlikes
  have hf := restorePost_fields type id author content e.now
  have hty := restorePost_getType_eq type id author content e.now
  have hres : loadItem e.now item
      = some { ((restorePost type id author content e.now).setTimestamp timestamp).setLikes
          (likes.getD 0) with comments := cms } := by
    rw [hload, hcm]
    cases c_items with
    | none =>
      simp only [Option.map_none', Option.getD_none] at hcs ⊢
      cases hcs
      simp [Post.setLikes, Post.setTimestamp, hf.2.2.2]
    | some cjs =>
      simp only [Option.map_some', Option.getD_some] at hcs ⊢
      rw [loadComments_entries cjs cms hcs]
      simp [Post.setLikes, Post.setTimestamp, hf.2.2.2]
  refine ⟨_, hres, hf.1, hf.2.1, hf.2.2.1, rfl, rfl, rfl, hty, ?_⟩
  rw [construct_document_posts]
  simp [Json.iterate, List.filterMap_append, List.filterMap_cons, hres]

/-- Witness of C14 (amended): the element `goodElement` between an element without id
and an element whose comments value is a string. -/
theorem restore_verbatim_witness :
    goodElement.atKey "type" = some (.string "help") ∧
    goodElement.atKey "id" = some (.number_integer 7) ∧ fitsLongLong 7 ∧
    goodElement.atKey "likes" = (some 2 : Option Int).map Json.number_integer ∧
    (∀ n, (some 2 : Option Int) = some n → fitsInt n) ∧
    List.Forall₂ commentEntry
      ((some [Json.object [("author", .string "bob"), ("content", .string "hi"),
        ("timestamp", .string "2024-01-01 10:05:00")]] : Option (List Json)).getD [])
      [{ author := "bob", content := "hi", timestamp := "2024-01-01 10:05:00" }] ∧
    ∃ p, loadItem (⟨"now", true⟩ : Env).now goodElement = some p ∧
      p.id = 7 ∧ p.author = "alice" ∧ p.content = "stuck" ∧
      p.timestamp = "2024-01-01 10:00:00" ∧
      p.likes = (some 2 : Option Int).getD 0 ∧
      p.comments = [{ author := "bob", content := "hi", timestamp := "2024-01-01 10:05:00" }] ∧
      p.getType = (if "help" = "lost" ∨ "help" = "found" ∨ "help" = "help" ∨ "help" = "events" ∨
            "help" = "academic" then "help" else "general") ∧
      (PostService.construct ⟨"now", true⟩ (.document (.array
          ([missingIdElement] ++ goodElement :: [stringCommentsElement])))).posts
        = [missingIdElement].filterMap (loadItem (⟨"now", true⟩ : Env).now) ++
            p :: [stringCommentsElement].filterMap (loadItem (⟨"now", true⟩ : Env).now) :=
  ⟨rfl, rfl, by unfold fitsLongLong; norm_num, rfl,
   fun n hn => by
     cases hn
     unfold fitsInt; norm_num,
   List.Forall₂.cons ⟨rfl, rfl, rfl⟩ List.Forall₂.nil,
   restore_verbatim ⟨"now", true⟩ goodElement "help" "alice" "stuck" "2024-01-01 10:00:00" 7
     (some 2)
     (some [Json.object [("author", .string "bob"), ("content", .string "hi"),
        ("timestamp", .string "2024-01-01 10:05:00")]])
     [{ author := "bob", content := "hi", timestamp := "2024-01-01 10:05:00" }]
     [missingIdElement] [stringCommentsElement]
     rfl rfl (by unfold fitsLongLong; norm_num) rfl rfl rfl rfl
     (fun n hn => by
       cases hn
       unfold fitsInt; norm_num)
     rfl (List.Forall₂.cons ⟨rfl, rfl, rfl⟩ List.Forall₂.nil)⟩

/-- C17: when `loadPosts` reconstructs a post from an element whose `type` is the string
`t`, that post has the class, the serialized `type`, and the `itemStatus` (present or
not, and its value) of the post `createPost` builds when called with `t`; every string
other than the five known ones gives a general post on both paths. -/
theorem dispatch_chains_agree (now : String) (item : Json) (p : Post) (t : String)
    (e : Env) (s : PostService) (author content : String)
    (ht : item.atKey "type" = some (.string t)) (hl : loadItem now item = some p) :
    p.cls = (s.createPost e author content t).1.cls ∧
    p.getType = (s.createPost e author content t).1.getType ∧
    p.toJson.atKey "type" = (s.createPost e author content t).1.toJson.atKey "type" ∧
    p.toJson.atKey "itemStatus"
      = (s.createPost e author content t).1.toJson.atKey "itemStatus" ∧
    p.getType = (if t = "lost" ∨ t = "found" ∨ t = "help" ∨ t = "events" ∨ t = "academic"
      then t else "general") := by
  obtain ⟨type, author', content', id, htype, hcls⟩ := loadItem_some now item p hl
  rw [ht] at htype
  simp only [Option.some_bind, Json.get_string, Option.some.injEq] at htype
  subst htype
  rw [restorePost_eq_makePost] at hcls
  have hcls' : p.cls = (s.createPost e author content t).1.cls := by
    rw [hcls, createPost_fst]; exact makePost_cls _ _ _ _ _ _ _ _ _
  have hgt : p.getType = (s.createPost e author content t).1.getType := by
    unfold Post.getType; rw [hcls']
  refine ⟨hcls', hgt, ?_, ?_, ?_⟩
  · rw [(toJson_atKey p).2.2.2.2.2.1, (toJson_atKey _).2.2.2.2.2.1, hgt]
  · rw [(toJson_atKey p).2.2.2.2.2.2.2, (toJson_atKey _).2.2.2.2.2.2.2, hcls']
  · rw [hgt, createPost_fst, ← restorePost_eq_makePost]
    exact restorePost_getType_eq _ _ _ _ _

/-- Witness of C17: `goodElement`, whose type is "help", against `createPost` called
with "help" on a catalog holding one post. -/
theorem dispatch_chains_agree_witness :
    goodElement.atKey "type" = some (.string "help") ∧
    loadItem "load time" goodElement = some goodPost ∧
    goodPost.cls = (onePostService.createPost ⟨"now", true⟩ "zed" "text" "help").1.cls ∧
    goodPost.getType = (onePostService.createPost ⟨"now", true⟩ "zed" "text" "help").1.getType ∧
    goodPost.toJson.atKey "type"
      = (onePostService.createPost ⟨"now", true⟩ "zed" "text" "help").1.toJson.atKey "type" ∧
    goodPost.toJson.atKey "itemStatus"
      = (onePostService.createPost ⟨"now", true⟩ "zed" "text" "help").1.toJson.atKey
          "itemStatus" ∧
    goodPost.getType = (if "help" = "lost" ∨ "help" = "found" ∨ "help" = "help" ∨
      "help" = "events" ∨ "help" = "academic" then "help" else "general") :=
  ⟨rfl, by decide,
   dispatch_chains_agree "load time" goodElement goodPost "help" ⟨"now", true⟩ onePostService
     "zed" "text" rfl (by decide)⟩

/-! ## Saving and loading again -/

theorem filterMap_loadItem_toJson (now : String) (posts : List Post)
    (h : ∀ p ∈ posts, Representable p) :
    (posts.map Post.toJson).filterMap (loadItem now) = posts := by
  induction posts with
  | nil => rfl
  | cons p rest ih =>
    have hp := loadItem_toJson now p (h p (List.mem_cons_self _ _))
    have hrest := ih (fun q hq => h q (List.mem_cons_of_mem _ hq))
    simp [List.filterMap_cons, hp, hrest]

theorem construct_saved_posts (e e1 : Env) (s : PostService) (hw : e.writable = true)
    (h : ∀ p ∈ s.posts, Representable p) :
    (PostService.construct e1 (s.savePosts e).DB_FILE).posts = s.posts.reverse := by
  have hfile : (s.savePosts e).DB_FILE = .document (.array (s.posts.reverse.map Post.toJson)) := by
    simp [PostService.savePosts, hw, PostService.getAllPostsAsJson]
  rw [hfile, construct_document_posts]
  exact filterMap_loadItem_toJson e1.now s.posts.reverse
    (fun p hp => h p (List.mem_reverse.mp hp))

/-! ## Faults inside the comments of an element -/

theorem loadItem_some_base (now : String) (item : Json) (p : Post)
    (h : loadItem now item = some p) :
    ∃ (type author content timestamp : String) (id likes : Int),
      (match item.atKey "comments" with
       | some (.array c_items) =>
         loadComments (((restorePost type id author content now).setTimestamp timestamp).setLikes
           likes) c_items
       | _ => some (((restorePost type id author content now).setTimestamp timestamp).setLikes
           likes)) = some p := by
  simp only [loadItem, Option.bind_eq_bind, Option.bind_eq_some] at h
  obtain ⟨jt, h1, type, h2, ji, h3, id, h4, ja, h5, author, h6, jc, h7, content, h8, jts, h9,
    timestamp, h10, likes, h11, h12⟩ := h
  exact ⟨type, author, content, timestamp, id, likes, h12⟩

theorem loadItem_none_of_not_loadable (now : String) (item : Json)
    (h : elementLoadable item = false) : loadItem now item = none := by
  have := loadItem_isSome now item
  rw [h] at this
  cases hl : loadItem now item with
  | none => rfl
  | some p => rw [hl] at this; cases this

/-- C20: an element whose `comments` is an array with an entry that lacks a string
`author`, `content` or `timestamp` is skipped as a whole by `loadPosts`, whatever its
other fields and other comments are: the catalog is the one the document without that
element gives; an element that is otherwise loadable and whose `comments` value is
there but is not an array is loaded, as a post without comments. -/
theorem comment_fault_skips_post (e : Env) (item1 item2 : Json) (c_items : List Json)
    (v : Json) (pre suf : List Json)
    (h1 : item1.atKey "comments" = some (.array c_items))
    (h2 : ∃ c ∈ c_items, commentShape c = false)
    (h3 : item2.atKey "comments" = some v) (h4 : v.is_array = false)
    (h5 : elementLoadable item2 = true) :
    loadItem e.now item1 = none ∧
    (PostService.construct e (.document (.array (pre ++ item1 :: suf)))).posts
      = (PostService.construct e (.document (.array (pre ++ suf)))).posts ∧
    ∃ p, loadItem e.now item2 = some p ∧ p.comments = [] ∧
      (PostService.construct e (.document (.array (pre ++ item2 :: suf)))).posts
        = pre.filterMap (loadItem e.now) ++ p :: suf.filterMap (loadItem e.now) := by
  have hbad : elementLoadable item1 = false := by
    obtain ⟨c, hc, hcs⟩ := h2
    have hall : c_items.all commentShape = false := by
      rw [List.all_eq_false]
      exact ⟨c, hc, by simp [hcs]⟩
    unfold elementLoadable
    rw [h1]
    simp [hall]
  have hnone := loadItem_none_of_not_loadable e.now item1 hbad
  refine ⟨hnone, ?_, ?_⟩
  · simp [construct_document_posts, Json.iterate, List.filterMap_append, List.filterMap_cons,
      hnone]
  · have hsome : (loadItem e.now item2).isSome = true := by rw [loadItem_isSome]; exact h5
    obtain ⟨p, hp⟩ := Option.isSome_iff_exists.mp hsome
    obtain ⟨type, author, content, timestamp, id, likes, hbase⟩ :=
      loadItem_some_base e.now item2 p hp
    rw [h3] at hbase
    have hpc : p.comments = [] := by
      cases v with
      | array xs => simp [Json.is_array] at h4
      | _ =>
        simp only [Option.some.injEq] at hbase
        rw [← hbase]
        exact (restorePost_fields type id author content e.now).2.2.2
    refine ⟨p, hp, hpc, ?_⟩
    simp [construct_document_posts, Json.iterate, List.filterMap_append, List.filterMap_cons, hp]

/-- Witness of C20: `badCommentElement` (second comment without timestamp) and
`stringCommentsElement` (comments is a string), each after `goodElement`. -/
theorem comment_fault_skips_post_witness :
    (∃ c ∈ [Json.object [("author", .string "bob"), ("content", .string "nice"),
              ("timestamp", .string "2024-01-04 09:30:00")],
            Json.object [("author", .string "dan"), ("content", .string "when?")]],
        commentShape c = false) ∧
    stringCommentsElement.atKey "comments" = some (.string "oops") ∧
    loadItem (⟨"now", true⟩ : Env).now badCommentElement = none ∧
    (PostService.construct ⟨"now", true⟩
        (.document (.array ([goodElement] ++ badCommentElement :: [])))).posts
      = (PostService.construct ⟨"now", true⟩ (.document (.array ([goodElement] ++ [])))).posts ∧
    ∃ p, loadItem (⟨"now", true⟩ : Env).now stringCommentsElement = some p ∧ p.comments = [] ∧
      (PostService.construct ⟨"now", true⟩
          (.document (.array ([goodElement] ++ stringCommentsElement :: [])))).posts
        = [goodElement].filterMap (loadItem (⟨"now", true⟩ : Env).now) ++
            p :: ([] : List Json).filterMap (loadItem (⟨"now", true⟩ : Env).now) :=
  ⟨⟨_, List.mem_cons_of_mem _ (List.mem_singleton.mpr rfl), by decide⟩, rfl,
   comment_fault_skips_post ⟨"now", true⟩ badCommentElement stringCommentsElement _
     (.string "oops") [goodElement] [] rfl
     ⟨_, List.mem_cons_of_mem _ (List.mem_singleton.mpr rfl), by decide⟩ rfl rfl (by decide)⟩

/-! ## Executions without integer overflow -/

theorem wrapSigned_32_range (n : Int) : fitsInt (wrapSigned 32 n) := by
  unfold fitsInt wrapSigned
  norm_num
  omega

theorem wrapSigned_64_range (n : Int) : fitsLongLong (wrapSigned 64 n) := by
  unfold fitsLongLong wrapSigned
  norm_num
  omega

theorem loadComments_base (cjs : List Json) :
    ∀ q p : Post, loadComments q cjs = some p → p.id = q.id ∧ p.likes = q.likes := by
  induction cjs with
  | nil => intro q p h; simp [loadComments] at h; rw [← h]; exact ⟨rfl, rfl⟩
  | cons cj rest ih =>
    intro q p h
    cases hc : commentOfJson cj with
    | none => simp [loadComments, hc] at h
    | some c =>
      simp only [loadComments, hc] at h
      exact ih (q.loadComment c) p h

theorem loadItem_range (now : String) (item : Json) (p : Post)
    (h : loadItem now item = some p) : fitsLongLong p.id ∧ fitsInt p.likes := by
  simp only [loadItem, Option.bind_eq_bind, Option.bind_eq_some] at h
  obtain ⟨jt, h1, type, h2, ji, h3, id, h4, ja, h5, author, h6, jc, h7, content, h8, jts, h9,
    timestamp, h10, likes, h11, h12⟩ := h
  have hid : fitsLongLong id := by
    cases ji <;> simp [Json.get_long_long] at h4
    rw [← h4]; exact wrapSigned_64_range _
  have hlikes : fitsInt likes := by
    split at h11
    · obtain ⟨jl, -, hjl⟩ := Option.bind_eq_some.mp h11
      cases jl <;> simp [Json.get_int] at hjl
      rw [← hjl]; exact wrapSigned_32_range _
    · simp only [Option.some.injEq] at h11
      rw [← h11]; unfold fitsInt; norm_num
  have hbase : p.id = id ∧ p.likes = likes := by
    split at h12
    · have := loadComments_base _ _ p h12
      exact ⟨this.1.trans (restorePost_fields type id author content now).1, this.2⟩
    · simp only [Option.some.injEq] at h12
      rw [← h12]
      exact ⟨(restorePost_fields type id author content now).1, rfl⟩
  rw [hbase.1, hbase.2]
  exact ⟨hid, hlikes⟩

theorem construct_inRange (e : Env) (file : DbFile)
    (h : updateNextIdDefined (PostService.construct e file).posts = true) :
    InRange (PostService.construct e file) := by
  have hinv := construct_nextIdInv e file
  unfold NextIdInv at hinv
  unfold updateNextIdDefined at h
  have hlt := of_decide_eq_true h
  have hge := maxIdFrom_ge (PostService.construct e file).posts 0
  refine ⟨?_, by omega, by omega⟩
  cases file with
  | absent => intro p hp; cases hp
  | unparsable => intro p hp; cases hp
  | document j =>
    intro p hp
    rw [construct_document_posts] at hp
    obtain ⟨item, -, hitem⟩ := List.mem_filterMap.mp hp
    exact loadItem_range e.now item p hitem

theorem step_inRange (s : PostService) (ec : Env × Call) (h : InRange s)
    (hd : callDefined s ec.2 = true) : InRange (s.step ec) := by
  obtain ⟨e, c⟩ := ec
  obtain ⟨hposts, h1, h2⟩ := h
  cases c with
  | create author content type =>
    have hlt : s.nextId < LLONG_MAX := of_decide_eq_true hd
    unfold LLONG_MAX at hlt h2
    refine ⟨?_, ?_, ?_⟩
    · simp only [PostService.step, createPost_posts, createPost_fst]
      intro p hp
      rcases List.mem_append.mp hp with hp | hp
      · exact hposts p hp
      · rw [List.mem_singleton.mp hp, (makePost_fields _ _ _ _ _).1,
          (makePost_fields _ _ _ _ _).2.2.2.2.1]
        unfold fitsLongLong fitsInt
        norm_num
        omega
    · simp only [PostService.step, createPost_nextId]; omega
    · simp only [PostService.step, createPost_nextId]; unfold LLONG_MAX; omega
  | addComment postId author content =>
    refine ⟨?_, by simpa [PostService.step, addCommentToPost_nextId] using h1,
      by simpa [PostService.step, addCommentToPost_nextId] using h2⟩
    simp only [PostService.step, PostService.addCommentToPost]
    split
    · rename_i q posts' hu
      simpa using updateFirst_forall (fun p => fitsLongLong p.id ∧ fitsInt p.likes)
        (fun post => (post.addComment author content e.now).2) (fun p hp => hp)
        postId s.posts q posts' hu hposts
    · exact hposts
  | unlike postId =>
    refine ⟨?_, by simpa [PostService.step, unlikePost_nextId] using h1,
      by simpa [PostService.step, unlikePost_nextId] using h2⟩
    simp only [PostService.step, PostService.unlikePost]
    split
    · rename_i q posts' hu
      simpa using updateFirst_forall (fun p => fitsLongLong p.id ∧ fitsInt p.likes)
        Post.decrementLikes
        (fun p hp => by
          unfold Post.decrementLikes
          split
          · rename_i hpos
            refine ⟨hp.1, ?_⟩
            have := hp.2
            unfold fitsInt at this ⊢
            show -2 ^ 31 ≤ p.likes - 1 ∧ p.likes - 1 < 2 ^ 31
            omega
          · exact hp) postId s.posts q posts' hu hposts
    · exact hposts
  | like postId =>
    refine ⟨?_, by simpa [PostService.step, likePost_nextId] using h1,
      by simpa [PostService.step, likePost_nextId] using h2⟩
    simp only [PostService.step, PostService.likePost]
    split
    · rename_i q posts' hu
      obtain ⟨pre, p, suf, hp1, hp2, hp3, hp4, hp5⟩ :=
        updateFirst_some Post.incrementLikes postId s.posts q posts' hu
      have hfirst : firstWithId postId s.posts = some p := by
        rw [hp1]; exact firstWithId_append postId p suf hp3 pre hp2
      have hlt : p.likes < INT_MAX := by
        simp only [callDefined, hfirst] at hd
        exact of_decide_eq_true hd
      simp only [savePosts_posts]
      rw [hp5]
      intro x hx
      have hall : ∀ y ∈ pre ++ p :: suf, fitsLongLong y.id ∧ fitsInt y.likes := by
        rw [← hp1]; exact hposts
      simp only [List.mem_append, List.mem_cons] at hx hall
      rcases hx with hx | hx | hx
      · exact hall x (Or.inl hx)
      · have hp := hall p (Or.inr (Or.inl rfl))
        rw [hx]
        refine ⟨hp.1, ?_⟩
        have := hp.2
        unfold fitsInt at this ⊢
        unfold INT_MAX at hlt
        show -2 ^ 31 ≤ p.likes + 1 ∧ p.likes + 1 < 2 ^ 31
        omega
      · exact hall x (Or.inr (Or.inr hx))
    · exact hposts

theorem run_induction_defined (P : PostService → Prop)
    (hstep : ∀ s ec, P s → callDefined s ec.2 = true → P (PostService.step s ec))
    (calls : List (Env × Call)) :
    ∀ s : PostService, P s → runDefined s calls = true → P (s.run calls) := by
  induction calls with
  | nil => intro s h _; exact h
  | cons ec rest ih =>
    intro s h hd
    simp only [runDefined, Bool.and_eq_true] at hd
    exact ih (s.step ec) (hstep s ec h hd.1) hd.2

theorem execution_inRange (e0 : Env) (file : DbFile) (calls : List (Env × Call))
    (h : executionDefined e0 file calls = true) :
    InRange (PostService.construct e0 file) ∧
    InRange ((PostService.construct e0 file).run calls) := by
  simp only [executionDefined, Bool.and_eq_true] at h
  have h0 := construct_inRange e0 file h.1
  exact ⟨h0, run_induction_defined InRange step_inRange calls _ h0 h.2⟩

/-! ## The counter `nextId` -/

/-- C10 (as stated, refuted): loading a document whose only post carries `likes` -3
gives a catalog whose post has likes -3; and after loading a document whose only post
carries the largest `int` as likes, one more like would make the count 2^31, which
the `int` field cannot hold. -/
theorem likes_negative_or_overflowing :
    (PostService.construct ⟨"now", true⟩ negativeLikesDocument).posts.map Post.likes = [-3] ∧
    ¬ LikesNonneg ((PostService.construct ⟨"now", true⟩ negativeLikesDocument).run []) ∧
    (PostService.construct ⟨"now", true⟩ largestLikesDocument).posts.map Post.likes
      = [2147483647] ∧
    callDefined (PostService.construct ⟨"now", true⟩ largestLikesDocument) (.like 1) = false ∧
    ¬ fitsInt (2147483647 + 1) := by
  refine ⟨by decide, ?_, by decide, by decide, by unfold fitsInt; norm_num⟩
  intro h
  have := h (Post.setLikes (Post.create .GeneralPost 1 "a" "c" "t") (-3)) (by decide)
  revert this
  decide

/-- C10 (amended): in an execution without integer overflow (no like on a post whose
likes is 2^31 - 1, ids and `nextId` below 2^63 - 1), if every post that `loadPosts`
restored has a non-negative like count, then after any sequence of create /
addComment / like / unlike calls every post has a like count that is non-negative and
an `int`. -/
theorem likes_stay_nonneg (e0 : Env) (file : DbFile) (calls : List (Env × Call))
    (h : ∀ p ∈ (PostService.construct e0 file).posts, 0 ≤ p.likes)
    (hdef : executionDefined e0 file calls = true) :
    ∀ p ∈ ((PostService.construct e0 file).run calls).posts, 0 ≤ p.likes ∧ p.likes ≤ INT_MAX := by
  intro p hp
  have hnn := run_likesNonneg calls _ h p hp
  have hr := ((execution_inRange e0 file calls hdef).2.1 p hp).2
  unfold fitsInt at hr
  unfold INT_MAX
  exact ⟨hnn, by omega⟩

/-- Witness of C10 (amended): the catalog loaded from a document with two posts (likes
2 and 0), after a like, two unlikes at the floor, and two creates. -/
theorem likes_stay_nonneg_witness :
    (PostService.construct ⟨"t0", true⟩ twoElementDocument).posts.map Post.likes = [2, 0] ∧
    (∀ p ∈ (PostService.construct ⟨"t0", true⟩ twoElementDocument).posts, 0 ≤ p.likes) ∧
    executionDefined ⟨"t0", true⟩ twoElementDocument sampleCalls = true ∧
    ((PostService.construct ⟨"t0", true⟩ twoElementDocument).run sampleCalls).posts.map Post.likes
      = [3, 0, 0, 0] ∧
    ∀ p ∈ ((PostService.construct ⟨"t0", true⟩ twoElementDocument).run sampleCalls).posts,
      0 ≤ p.likes ∧ p.likes ≤ INT_MAX :=
  ⟨by decide, by decide, by decide, by decide,
   likes_stay_nonneg ⟨"t0", true⟩ twoElementDocument sampleCalls (by decide) (by decide)⟩

/-! ## Identity of posts, without overflow -/

/-- C11 (as stated, refuted): loading a document with two posts of id 3 and a post of id
0 gives a catalog whose ids are 3, 3, 0: two posts share an id and one id is not
positive; and after loading a document whose only post has the largest `long long` as
id (positive, distinct), the next id would be 2^63, which a `long long` cannot hold. -/
theorem ids_not_distinct_or_overflowing :
    (PostService.construct ⟨"now", true⟩ duplicateIdDocument).posts.map Post.id = [3, 3, 0] ∧
    ¬ IdsPositiveDistinct
        ((PostService.construct ⟨"now", true⟩ duplicateIdDocument).run []).posts ∧
    (PostService.construct ⟨"now", true⟩ largestIdDocument).posts.map Post.id
      = [9223372036854775807] ∧
    updateNextIdDefined (PostService.construct ⟨"now", true⟩ largestIdDocument).posts = false ∧
    ¬ fitsLongLong (9223372036854775807 + 1) := by
  refine ⟨by decide, ?_, by decide, by decide, by unfold fitsLongLong; norm_num⟩
  intro h
  have h2 := h.2
  revert h2
  decide

/-- C11 (amended): in an execution without integer overflow (loaded ids and `nextId`
below 2^63 - 1 at each create, no like at likes = 2^31 - 1), if the posts `loadPosts`
restored have positive, pairwise distinct ids (as they have when the catalog starts
empty), then after any sequence of create / addComment / like / unlike calls every
post id is a positive `long long` and no two posts share an id; and a further call of
any kind leaves the ids of the posts already stored as they were, in the same
positions. -/
theorem ids_positive_distinct (e0 : Env) (file : DbFile) (calls : List (Env × Call))
    (ec : Env × Call)
    (h : IdsPositiveDistinct (PostService.construct e0 file).posts)
    (hdef : executionDefined e0 file calls = true)
    (hec : callDefined ((PostService.construct e0 file).run calls) ec.2 = true) :
    IdsPositiveDistinct ((PostService.construct e0 file).run calls).posts ∧
    (∀ p ∈ ((PostService.construct e0 file).run calls).posts, fitsLongLong p.id) ∧
    IdsPositiveDistinct (((PostService.construct e0 file).run calls).step ec).posts ∧
    (∀ p ∈ (((PostService.construct e0 file).run calls).step ec).posts, fitsLongLong p.id) ∧
    List.IsPrefix (((PostService.construct e0 file).run calls).posts.map Post.id)
      ((((PostService.construct e0 file).run calls).step ec).posts.map Post.id) ∧
    IdsPositiveDistinct (PostService.construct e0 .absent).posts ∧
    IdsPositiveDistinct (PostService.construct e0 .unparsable).posts := by
  have hrun := run_induction (fun s => NextIdInv s ∧ IdsPositiveDistinct s.posts)
    step_idsPositiveDistinct calls _ ⟨construct_nextIdInv e0 file, h⟩
  have hstep := step_idsPositiveDistinct _ ec hrun
  have hr := (execution_inRange e0 file calls hdef).2
  have hr' := step_inRange _ ec hr hec
  exact ⟨hrun.2, fun p hp => (hr.1 p hp).1, hstep.2, fun p hp => (hr'.1 p hp).1,
    step_ids_prefix _ ec, idsPositiveDistinct_nil, idsPositiveDistinct_nil⟩

/-- Witness of C11 (amended): the catalog loaded from a document with two posts (ids 7
and 8), after six calls among them two creates, followed by a third create. -/
theorem ids_positive_distinct_witness :
    (PostService.construct ⟨"t0", true⟩ twoElementDocument).posts.map Post.id = [7, 8] ∧
    IdsPositiveDistinct (PostService.construct ⟨"t0", true⟩ twoElementDocument).posts ∧
    executionDefined ⟨"t0", true⟩ twoElementDocument sampleCalls = true ∧
    ((PostService.construct ⟨"t0", true⟩ twoElementDocument).run sampleCalls).posts.map Post.id
      = [7, 8, 9, 10] ∧
    (IdsPositiveDistinct ((PostService.construct ⟨"t0", true⟩ twoElementDocument).run
        sampleCalls).posts ∧
     (∀ p ∈ ((PostService.construct ⟨"t0", true⟩ twoElementDocument).run sampleCalls).posts,
        fitsLongLong p.id) ∧
     IdsPositiveDistinct (((PostService.construct ⟨"t0", true⟩ twoElementDocument).run
        sampleCalls).step (⟨"t7", true⟩, .create "carol" "three" "help")).posts ∧
     (∀ p ∈ (((PostService.construct ⟨"t0", true⟩ twoElementDocument).run sampleCalls).step
        (⟨"t7", true⟩, .create "carol" "three" "help")).posts, fitsLongLong p.id) ∧
     List.IsPrefix
       (((PostService.construct ⟨"t0", true⟩ twoElementDocument).run sampleCalls).posts.map Post.id)
       ((((PostService.construct ⟨"t0", true⟩ twoElementDocument).run sampleCalls).step
          (⟨"t7", true⟩, .create "carol" "three" "help")).posts.map Post.id) ∧
     IdsPositiveDistinct (PostService.construct ⟨"t0", true⟩ .absent).posts ∧
     IdsPositiveDistinct (PostService.construct ⟨"t0", true⟩ .unparsable).posts) :=
  ⟨by decide, And.intro (by decide) (by decide), by decide, by decide,
   ids_positive_distinct ⟨"t0", true⟩ twoElementDocument sampleCalls
     (⟨"t7", true⟩, .create "carol" "three" "help")
     (And.intro (by decide) (by decide)) (by decide) (by decide)⟩

/-! ## Frame of a mutation, without overflow -/

/-- C18 (as stated, refuted): the catalog loaded from a document whose only post has id
1 and the largest `int` as likes contains a post with id 1, and `likePost(1)` would
have to raise its likes to 2^31, which the `int` field cannot hold. -/
theorem like_at_largest_likes_overflows :
    (∃ p ∈ (PostService.construct ⟨"now", true⟩ largestLikesDocument).posts, p.id = 1) ∧
    (firstWithId 1 (PostService.construct ⟨"now", true⟩ largestLikesDocument).posts).map
      Post.likes = some INT_MAX ∧
    callDefined (PostService.construct ⟨"now", true⟩ largestLikesDocument) (.like 1) = false ∧
    ¬ fitsInt (INT_MAX + 1) := by
  refine ⟨⟨_, List.mem_singleton.mpr rfl, by decide⟩, by decide, by decide, ?_⟩
  unfold fitsInt INT_MAX
  norm_num

/-- C18 (amended): when the catalog holds a post with id `postId`, the posts are `pre`,
then the first post `p` with that id, then `suf`; if the likes of `p` are below
2^31 - 1, `likePost` returns and stores `p` with likes one higher (still an `int`)
and every other field as before; `unlikePost` does so with likes one lower when they
were positive and unchanged otherwise, `addCommentToPost` stores `p` with the new
comment appended; in each case `pre` and `suf` (which may hold further posts with the
same id), the order of the posts and `nextId` are left as they were. -/
theorem mutation_frame (e : Env) (s : PostService) (postId : Int) (author content : String)
    (h : ∃ p ∈ s.posts, p.id = postId) :
    ∃ pre p suf, s.posts = pre ++ p :: suf ∧ (∀ x ∈ pre, x.id ≠ postId) ∧ p.id = postId ∧
      (p.likes < INT_MAX →
        (s.likePost e postId).1 = some { p with likes := p.likes + 1 } ∧
        (s.likePost e postId).2.posts = pre ++ { p with likes := p.likes + 1 } :: suf ∧
        (s.likePost e postId).2.nextId = s.nextId ∧
        p.likes + 1 ≤ INT_MAX) ∧
      (s.unlikePost e postId).1
          = some { p with likes := if p.likes > 0 then p.likes - 1 else p.likes } ∧
      (s.unlikePost e postId).2.posts
          = pre ++ { p with likes := if p.likes > 0 then p.likes - 1 else p.likes } :: suf ∧
      (s.unlikePost e postId).2.nextId = s.nextId ∧
      (s.addCommentToPost e postId author content).2.posts
          = pre ++ { p with comments := p.comments ++
              [{ author := author, content := content, timestamp := e.now }] } :: suf ∧
      (s.addCommentToPost e postId author content).2.nextId = s.nextId := by
  obtain ⟨pre, p, suf, h1, h2, h3⟩ := exists_first postId s.posts h
  have hl := likePost_at e s postId pre suf p h1 h2 h3
  have hu := unlikePost_at e s postId pre suf p h1 h2 h3
  have ha := addCommentToPost_at e s postId author content pre suf p h1 h2 h3
  have hdec : p.decrementLikes
      = { p with likes := if p.likes > 0 then p.likes - 1 else p.likes } := by
    unfold Post.decrementLikes
    split <;> rfl
  rw [hdec] at hu
  exact ⟨pre, p, suf, h1, h2, h3,
    fun hlt => ⟨hl.1, hl.2, likePost_nextId e s postId, by omega⟩, hu.1, hu.2,
    unlikePost_nextId e s postId, ha.2, addCommentToPost_nextId e s postId author content⟩

/-- Witness of C18 (amended) on a catalog in which two posts share the id 4; the first
of them has no likes, so the like does not overflow. -/
theorem mutation_frame_witness :
    (∃ p ∈ sharedIdService.posts, p.id = 4) ∧
    (firstWithId 4 sharedIdService.posts).map Post.likes = some 0 ∧
    (sharedIdService.likePost ⟨"now", true⟩ 4).2.posts.map (fun p => (p.id, p.likes))
      = [(4, 1), (4, 0), (5, 0)] ∧
    ∃ pre p suf, sharedIdService.posts = pre ++ p :: suf ∧ (∀ x ∈ pre, x.id ≠ 4) ∧ p.id = 4 ∧
      (p.likes < INT_MAX →
        (sharedIdService.likePost ⟨"now", true⟩ 4).1 = some { p with likes := p.likes + 1 } ∧
        (sharedIdService.likePost ⟨"now", true⟩ 4).2.posts
            = pre ++ { p with likes := p.likes + 1 } :: suf ∧
        (sharedIdService.likePost ⟨"now", true⟩ 4).2.nextId = sharedIdService.nextId ∧
        p.likes + 1 ≤ INT_MAX) ∧
      (sharedIdService.unlikePost ⟨"now", true⟩ 4).1
          = some { p with likes := if p.likes > 0 then p.likes - 1 else p.likes } ∧
      (sharedIdService.unlikePost ⟨"now", true⟩ 4).2.posts
          = pre ++ { p with likes := if p.likes > 0 then p.likes - 1 else p.likes } :: suf ∧
      (sharedIdService.unlikePost ⟨"now", true⟩ 4).2.nextId = sharedIdService.nextId ∧
      (sharedIdService.addCommentToPost ⟨"now", true⟩ 4 "bob" "hi").2.posts
          = pre ++ { p with comments := p.comments ++
              [{ author := "bob", content := "hi",
                 timestamp := (⟨"now", true⟩ : Env).now }] } :: suf ∧
      (sharedIdService.addCommentToPost ⟨"now", true⟩ 4 "bob" "hi").2.nextId
          = sharedIdService.nextId :=
  ⟨⟨Post.create .GeneralPost 4 "a" "first" "t1", by simp [sharedIdService], rfl⟩,
   by decide, by decide,
   mutation_frame ⟨"now", true⟩ sharedIdService 4 "bob" "hi"
     ⟨Post.create .GeneralPost 4 "a" "first" "t1", by simp [sharedIdService], rfl⟩⟩

/-! ## Saving and loading again, with the counter -/

theorem maxIdFrom_lt (bound : Int) (posts : List Post) :
    ∀ m : Int, m < bound → (∀ p ∈ posts, p.id < bound) → maxIdFrom m posts < bound := by
  induction posts with
  | nil => intro m hm _; exact hm
  | cons post rest ih =>
    intro m hm h
    simp only [maxIdFrom, Post.getId]
    have hpost := h post (List.mem_cons_self _ _)
    have hrest : ∀ p ∈ rest, p.id < bound := fun p hp => h p (List.mem_cons_of_mem _ hp)
    split
    · exact ih _ hpost hrest
    · exact ih _ hm hrest

theorem largestIdService_representable : ∀ p ∈ largestIdService.posts, Representable p := by
  intro p hp
  simp only [largestIdService, List.mem_singleton] at hp
  subst hp
  exact ⟨by unfold fitsLongLong; norm_num, by unfold fitsInt; norm_num, rfl⟩

/-- C19 (as stated, refuted): for a catalog state holding one post whose id is the
largest `long long`, saving and loading gives that post back, but one more than the
larger of 0 and the largest id is 2^63, which the `long long` counter `nextId` cannot
hold. -/
theorem nextId_after_reload_overflows :
    (∀ p ∈ largestIdService.posts, Representable p) ∧
    (PostService.construct ⟨"t1", true⟩ (largestIdService.savePosts ⟨"t0", true⟩).DB_FILE).posts
      = largestIdService.posts.reverse ∧
    flooredNextId
        (PostService.construct ⟨"t1", true⟩
          (largestIdService.savePosts ⟨"t0", true⟩).DB_FILE).posts = 9223372036854775808 ∧
    ¬ fitsLongLong (flooredNextId
        (PostService.construct ⟨"t1", true⟩
          (largestIdService.savePosts ⟨"t0", true⟩).DB_FILE).posts) := by
  have h : flooredNextId
      (PostService.construct ⟨"t1", true⟩
        (largestIdService.savePosts ⟨"t0", true⟩).DB_FILE).posts = 9223372036854775808 := by
    decide
  refine ⟨largestIdService_representable, by decide, h, ?_⟩
  rw [h]
  unfold fitsLongLong
  norm_num

/-- C19 (amended): for every catalog state whose posts are representable in memory (ids
within `long long`, likes within `int`, lost-and-found posts with status "lost" or
"found"), a fresh catalog constructed on the file that saving wrote holds the same
posts, equal field for field, in exactly the reverse storage order; when every id is
below 2^63 - 1 its `nextId` is one more than the larger of 0 and the largest id, a
`long long`; saving that catalog and constructing once more gives the posts in the
original storage order. -/
theorem save_load_reverses (e e1 e2 e3 : Env) (s : PostService)
    (hw : e.writable = true) (hw2 : e2.writable = true)
    (h : ∀ p ∈ s.posts, Representable p) :
    (PostService.construct e1 (s.savePosts e).DB_FILE).posts = s.posts.reverse ∧
    ((∀ p ∈ s.posts, p.id < LLONG_MAX) →
      (PostService.construct e1 (s.savePosts e).DB_FILE).nextId
        = flooredNextId (PostService.construct e1 (s.savePosts e).DB_FILE).posts ∧
      (PostService.construct e1 (s.savePosts e).DB_FILE).nextId
        = flooredNextId s.posts.reverse ∧
      fitsLongLong (PostService.construct e1 (s.savePosts e).DB_FILE).nextId) ∧
    (PostService.construct e3
      ((PostService.construct e1 (s.savePosts e).DB_FILE).savePosts e2).DB_FILE).posts
      = s.posts := by
  have h1 := construct_saved_posts e e1 s hw h
  have hinv := construct_nextIdInv e1 (s.savePosts e).DB_FILE
  have hn := nextIdInv_floored _ hinv
  refine ⟨h1, ?_, ?_⟩
  · intro hlt
    refine ⟨hn, by rw [hn, h1], ?_⟩
    unfold NextIdInv at hinv
    rw [hinv, h1]
    have hmax := maxIdFrom_lt LLONG_MAX s.posts.reverse 0 (by unfold LLONG_MAX; norm_num)
      (fun p hp => hlt p (List.mem_reverse.mp hp))
    have hge := maxIdFrom_ge s.posts.reverse 0
    unfold LLONG_MAX at hmax
    unfold fitsLongLong
    norm_num
    omega
  · have h2 := construct_saved_posts e2 e3 (PostService.construct e1 (s.savePosts e).DB_FILE) hw2
      (by rw [h1]; exact fun p hp => h p (List.mem_reverse.mp hp))
    rw [h2, h1, List.reverse_reverse]

/-- Witness of C19 (amended) on a catalog of three representable posts with ids 1, 2, 3. -/
theorem save_load_reverses_witness :
    (⟨"t5", true⟩ : Env).writable = true ∧
    (∀ p ∈ threePosts.posts, Representable p) ∧
    (∀ p ∈ threePosts.posts, p.id < LLONG_MAX) ∧
    (PostService.construct ⟨"t6", false⟩ (threePosts.savePosts ⟨"t5", true⟩).DB_FILE).nextId = 4 ∧
    ((PostService.construct ⟨"t6", false⟩ (threePosts.savePosts ⟨"t5", true⟩).DB_FILE).posts
        = threePosts.posts.reverse ∧
     ((∀ p ∈ threePosts.posts, p.id < LLONG_MAX) →
       (PostService.construct ⟨"t6", false⟩ (threePosts.savePosts ⟨"t5", true⟩).DB_FILE).nextId
          = flooredNextId
              (PostService.construct ⟨"t6", false⟩ (threePosts.savePosts ⟨"t5", true⟩).DB_FILE).posts ∧
       (PostService.construct ⟨"t6", false⟩ (threePosts.savePosts ⟨"t5", true⟩).DB_FILE).nextId
          = flooredNextId threePosts.posts.reverse ∧
       fitsLongLong
         (PostService.construct ⟨"t6", false⟩ (threePosts.savePosts ⟨"t5", true⟩).DB_FILE).nextId) ∧
     (PostService.construct ⟨"t8", true⟩
        ((PostService.construct ⟨"t6", false⟩
          (threePosts.savePosts ⟨"t5", true⟩).DB_FILE).savePosts ⟨"t7", true⟩).DB_FILE).posts
        = threePosts.posts) :=
  ⟨rfl,
   by
     intro p hp
     simp only [threePosts, List.mem_cons, List.mem_singleton, List.not_mem_nil, or_false] at hp
     rcases hp with hp | hp | hp <;> subst hp <;>
       exact ⟨by unfold fitsLongLong; norm_num, by unfold fitsInt; norm_num, rfl⟩,
   by decide, by decide,
   save_load_reverses ⟨"t5", true⟩ ⟨"t6", false⟩ ⟨"t7", true⟩ ⟨"t8", true⟩ threePosts rfl rfl
     (by
       intro p hp
       simp only [threePosts, List.mem_cons, List.mem_singleton, List.not_mem_nil, or_false] at hp
       rcases hp with hp | hp | hp <;> subst hp <;>
         exact ⟨by unfold fitsLongLong; norm_num, by unfold fitsInt; norm_num, rfl⟩)⟩

end DtuConnect
